import Mathlib

/-!
LockVault: the vault core of `assets/js/main.js`.

A shallow embedding of the `LockVault` class: the strength evaluator, the
registration policy, the credential hash, the record encoding, the generator,
and the session and vault operations over `localStorage`.

Conventions of the embedding.

* A JavaScript string is the list of its UTF-16 code units (`JSString`), so
  `length`, `charCodeAt`, `===` and regular expressions without the `u` flag
  mean what they mean in the source.
* `Date.now()`, `new Date().toISOString()`, `Math.random()` and `confirm(..)`
  are inputs of the operation that reads them.
* `localStorage` is a record of the three kinds of key the class uses; a value
  is kept as the data `JSON.parse` gives back for it, and an absent list reads
  as the empty list, as in `getUsers` and `loadPasswords`.
* A call that ends by a thrown exception is the completion `throws`.
* Alerts, redirects and DOM updates are not part of the state.
-/

namespace LockVault

/-! ## Strings -/

/-- A JavaScript string, as its sequence of UTF-16 code units. -/
abbrev JSString := List Nat

/-- UTF-16 code units of one Unicode scalar value. -/
def utf16 (c : Char) : List Nat :=
  if c.toNat < 65536 then [c.toNat]
  else [55296 + (c.toNat - 65536) / 1024, 56320 + (c.toNat - 65536) % 1024]

/-- The JavaScript string a source literal denotes. -/
def js (s : String) : JSString := s.toList.flatMap utf16

/-- The method `String.prototype.charAt`: the one-unit string at `i`, or the empty string. -/
def charAt (s : JSString) (i : Nat) : JSString :=
  match s.get? i with
  | some c => [c]
  | none => []

/-! ## Regular expressions of the form `/[...]/` -/

/-- One member of a character class: a literal code unit or a range `lo-hi`. -/
inductive ClassItem where
  | single (c : Nat)
  | range (lo hi : Nat)
  deriving DecidableEq

/-- Whether a class member matches the code unit `u`. -/
def ClassItem.hit : ClassItem → Nat → Bool
  | .single c, u => u == c
  | .range lo hi, u => decide (lo ≤ u) && decide (u ≤ hi)

/-- A character class `[...]` or `[^...]`. -/
structure CharClass where
  negated : Bool
  items : List ClassItem

/-- Whether the class matches the code unit `u`. -/
def CharClass.hit (k : CharClass) (u : Nat) : Bool :=
  if k.negated then !(k.items.any fun it => it.hit u) else k.items.any fun it => it.hit u

/-- The call `/[...]/.test(s)`: some code unit of `s` is matched by the class. -/
def CharClass.test (k : CharClass) (s : JSString) : Bool := s.any k.hit

/-- The regex `/[a-z]/`. -/
def reLower : CharClass := ⟨false, [.range 97 122]⟩
/-- The regex `/[A-Z]/`. -/
def reUpper : CharClass := ⟨false, [.range 65 90]⟩
/-- The regex `/[0-9]/`, which is also `/\d/`. -/
def reDigit : CharClass := ⟨false, [.range 48 57]⟩
/-- The regex `/[^A-Za-z0-9]/`. -/
def reNonAlnum : CharClass := ⟨true, [.range 65 90, .range 97 122, .range 48 57]⟩

/-- Code units of the class in `validatePassword`, in source order:
`! @ # $ % ^ & * ( ) , . ? " : { } | < >`. -/
def specialUnits : List Nat :=
  [33, 64, 35, 36, 37, 94, 38, 42, 40, 41, 44, 46, 63, 34, 58, 123, 125, 124, 60, 62]

/-- The regex `/[!@#$%^&*(),.?":{}|<>]/`. -/
def reSpecial : CharClass := ⟨false, specialUnits.map ClassItem.single⟩

/-! ## Strength evaluator and registration policy -/

/-- The `level` strings of a strength report. -/
inductive Level where
  | weak | fair | good | strong
  deriving DecidableEq, Repr

/-- The object `{ level, score }` that `getPasswordStrength` returns. -/
structure Strength where
  level : Level
  score : Nat
  deriving DecidableEq, Repr

/-- The statement `if (cond) score++`. -/
def bump (cond : Bool) (score : Nat) : Nat := if cond then score + 1 else score

/-- The value of `score` after the six `if` statements of `getPasswordStrength`. -/
def strengthPoints (password : JSString) : Nat :=
  let score := 0
  let score := bump (decide (password.length ≥ 8)) score
  let score := bump (decide (password.length ≥ 12)) score
  let score := bump (reLower.test password) score
  let score := bump (reUpper.test password) score
  let score := bump (reDigit.test password) score
  let score := bump (reNonAlnum.test password) score
  score

/-- The method `getPasswordStrength(password)`. -/
def getPasswordStrength (password : JSString) : Strength :=
  let score := strengthPoints password
  if score ≤ 2 then ⟨.weak, 25⟩
  else if score ≤ 4 then ⟨.fair, 50⟩
  else if score ≤ 5 then ⟨.good, 75⟩
  else ⟨.strong, 100⟩

/-- The method `validatePassword(password)`. -/
def validatePassword (password : JSString) : Bool :=
  let minLength := 8
  let hasUpperCase := reUpper.test password
  let hasLowerCase := reLower.test password
  let hasNumbers := reDigit.test password
  let hasSpecialChar := reSpecial.test password
  decide (password.length ≥ minLength) &&
    hasUpperCase &&
    hasLowerCase &&
    hasNumbers &&
    hasSpecialChar

/-! ## Credential hash -/

/-- The abstract operation ToInt32 on an integer. -/
def toInt32 (x : Int) : Int := (x + 2147483648) % 4294967296 - 2147483648

/-- One iteration of the loop of `hashPassword`:
`hash = ((hash << 5) - hash) + char; hash = hash & hash`. -/
def hashStep (hash : Int) (char : Nat) : Int :=
  let hash := (toInt32 (hash * 32) - hash) + (char : Int)
  toInt32 hash

/-- Decimal digits of `n`, most significant first, in front of `acc`. -/
def decimalDigits : Nat → Nat → List Nat → List Nat
  | 0, _, acc => acc
  | fuel + 1, n, acc =>
    if n < 10 then (48 + n) :: acc
    else decimalDigits fuel (n / 10) ((48 + n % 10) :: acc)

/-- The method `Number.prototype.toString` on an integer. -/
def numberToString (x : Int) : JSString :=
  if x < 0 then 45 :: decimalDigits (x.natAbs + 1) x.natAbs []
  else decimalDigits (x.natAbs + 1) x.natAbs []

/-- The method `hashPassword(password)`. -/
def hashPassword (password : JSString) : JSString :=
  numberToString (password.foldl hashStep 0)

/-- The method `verifyPassword(password, hash)`. -/
def verifyPassword (password hash : JSString) : Bool :=
  hashPassword password == hash

/-! ## Record encoding: `btoa` and `atob`

The two host functions, as the HTML standard defines them (forgiving-base64
encode and decode over the RFC 4648 alphabet). `none` stands for the
`InvalidCharacterError` they throw. -/

/-- The base64 character of a six-bit value. -/
def b64char (v : Nat) : Nat :=
  if v < 26 then 65 + v
  else if v < 52 then 97 + (v - 26)
  else if v < 62 then 48 + (v - 52)
  else if v = 62 then 43
  else 47

/-- Whether a code unit is `+`, `/` or ASCII alphanumeric. -/
def isBase64Char (c : Nat) : Bool :=
  c == 43 || c == 47 || (decide (48 ≤ c) && decide (c ≤ 57)) ||
    (decide (65 ≤ c) && decide (c ≤ 90)) || (decide (97 ≤ c) && decide (c ≤ 122))

/-- The six-bit value of a base64 character. -/
def b64index (c : Nat) : Nat :=
  if 65 ≤ c ∧ c ≤ 90 then c - 65
  else if 97 ≤ c ∧ c ≤ 122 then c - 71
  else if 48 ≤ c ∧ c ≤ 57 then c + 4
  else if c = 43 then 62
  else 63

/-- Base64 of a byte sequence, with `=` padding. -/
def base64Encode : List Nat → List Nat
  | a :: b :: c :: rest =>
    b64char (a / 4) :: b64char (a % 4 * 16 + b / 16) :: b64char (b % 16 * 4 + c / 64) ::
      b64char (c % 64) :: base64Encode rest
  | [a, b] => [b64char (a / 4), b64char (a % 4 * 16 + b / 16), b64char (b % 16 * 4), 61]
  | [a] => [b64char (a / 4), b64char (a % 4 * 16), 61, 61]
  | [] => []

/-- The host function `btoa(data)`: throws when a code unit exceeds `0xFF`, otherwise the
base64 of the code units taken as bytes. -/
def btoa (data : JSString) : Option JSString :=
  if data.all (fun c => decide (c ≤ 255)) then some (base64Encode data) else none

/-- ASCII whitespace: TAB, LF, FF, CR, SPACE. -/
def isAsciiWhitespace (c : Nat) : Bool :=
  c == 9 || c == 10 || c == 12 || c == 13 || c == 32

/-- Step 2 of forgiving-base64 decode: when the length is a multiple of four, one or two
trailing `=` are removed. -/
def stripPadding (data : List Nat) : List Nat :=
  if data.length % 4 = 0 then
    if data.getLast? = some 61 then
      if data.dropLast.getLast? = some 61 then data.dropLast.dropLast else data.dropLast
    else data
  else data

/-- The bytes of a sequence of six-bit values: 24 bits give three bytes, 18 trailing bits
give two, 12 give one, the surplus bits are dropped. -/
def decodeSextets : List Nat → List Nat
  | a :: b :: c :: d :: rest =>
    (a * 4 + b / 16) :: (b % 16 * 16 + c / 4) :: (c % 4 * 64 + d) :: decodeSextets rest
  | [a, b, c] => [a * 4 + b / 16, b % 16 * 16 + c / 4]
  | [a, b] => [a * 4 + b / 16]
  | _ => []

/-- The host function `atob(data)`: forgiving-base64 decode. -/
def atob (data : JSString) : Option JSString :=
  let data := data.filter fun c => !isAsciiWhitespace c
  let data := stripPadding data
  if data.length % 4 = 1 then none
  else if data.all isBase64Char then some (decodeSextets (data.map b64index))
  else none

/-- The method `encryptPassword(password)`. -/
def encryptPassword (password : JSString) : Option JSString := btoa password

/-- The method `decryptPassword(encryptedPassword)`. -/
def decryptPassword (encryptedPassword : JSString) : Option JSString := atob encryptedPassword

/-! ## Secret generator -/

/-- A value of `Math.random()`: a double in the interval `[0, 1)`, that is a number
`sig / 2 ^ exp` whose significand has at most 53 bits and whose exponent is in the range
of the doubles. -/
structure Unit01 where
  sig : Nat
  exp : Nat
  sig_lt : sig < 2 ^ 53
  lt_one : sig < 2 ^ exp
  exp_le : exp ≤ 1074

/-- The number of low bits that the integer `x` has beyond 53 significant bits. -/
def excessBits : Nat → Nat → Nat
  | 0, _ => 0
  | fuel + 1, x => if x < 2 ^ 53 then 0 else excessBits fuel (x / 2) + 1

/-- The integer with at most 53 significant bits that is nearest to `x`, a tie going to the
even significand: the rounding of IEEE 754 binary64 arithmetic (roundTiesToEven). -/
def roundSig53 (x : Nat) : Nat :=
  if x < 2 ^ 53 then x
  else
    let s := excessBits x x
    let q := x / 2 ^ s
    let rest := x % 2 ^ s
    let half := 2 ^ s / 2
    if rest > half ∨ (rest = half ∧ q % 2 = 1) then (q + 1) * 2 ^ s else q * 2 ^ s

/-- The index `Math.floor(r * n)` for the double `r` and the string length `n`, an integer
that is a double itself. The product of the doubles is the exact product
`sig * n / 2 ^ exp` rounded to the nearest double: its numerator is rounded to 53
significant bits, the scaling by the power of two is exact (the product is `0`, or at least
`r`, so it does not fall below the exponent range). `Math.floor` then takes the integer
part. -/
def Unit01.floorMul (r : Unit01) (n : Nat) : Nat := roundSig53 (r.sig * n) / 2 ^ r.exp

/-- The `options` argument of `generatePassword`; an absent property is `none`. -/
structure GenOptions where
  length : Option Nat
  includeUppercase : Option Bool
  includeLowercase : Option Bool
  includeNumbers : Option Bool
  includeSymbols : Option Bool

/-- The lowercase alphabet of the generator. -/
def lowerChars : JSString := js "abcdefghijklmnopqrstuvwxyz"
/-- The uppercase alphabet of the generator. -/
def upperChars : JSString := js "ABCDEFGHIJKLMNOPQRSTUVWXYZ"
/-- The digits of the generator. -/
def numberChars : JSString := js "0123456789"
/-- The symbols of the generator: `!@#$%^&*()_+-=[]{}|;:,.<>?`. -/
def symbolChars : JSString := js "!@#$%^&*()_+-=[]\x7b\x7d|;:,.<>?"

/-- The pool `charset` that `generatePassword` builds from the four flags. -/
def buildCharset (includeUppercase includeLowercase includeNumbers includeSymbols : Bool) :
    JSString :=
  let charset : JSString := []
  let charset := if includeLowercase then charset ++ lowerChars else charset
  let charset := if includeUppercase then charset ++ upperChars else charset
  let charset := if includeNumbers then charset ++ numberChars else charset
  let charset := if includeSymbols then charset ++ symbolChars else charset
  charset

/-- The method `generatePassword(options)`; `random i` is the value `Math.random()` returns
in iteration `i` of the loop. -/
def generatePassword (options : GenOptions) (random : Nat → Unit01) : JSString :=
  let length := options.length.getD 12
  let includeUppercase := options.includeUppercase.getD true
  let includeLowercase := options.includeLowercase.getD true
  let includeNumbers := options.includeNumbers.getD true
  let includeSymbols := options.includeSymbols.getD true
  let charset := buildCharset includeUppercase includeLowercase includeNumbers includeSymbols
  if charset = [] then []
  else
    (List.range length).foldl
      (fun password i => password ++ charAt charset ((random i).floorMul charset.length)) []

/-! ## Stored data -/

/-- An owner object of the `lockvault_users` array. -/
structure User where
  id : Nat
  username : JSString
  email : JSString
  password : JSString
  createdAt : JSString
  deriving DecidableEq

/-- A record object of a `lockvault_passwords_<id>` array; `updatedAt` is absent until the
first update. -/
structure PasswordEntry where
  id : Nat
  website : JSString
  username : JSString
  password : JSString
  notes : JSString
  createdAt : JSString
  userId : Nat
  updatedAt : Option JSString
  deriving DecidableEq

/-- The keys of `localStorage` the class uses: `lockvault_users`, `lockvault_current_user`
and, for each owner id, `lockvault_passwords_<id>`. -/
structure Storage where
  users : List User
  currentUser : Option User
  passwords : Nat → List PasswordEntry

/-- The instance fields `currentUser` and `passwords`, together with `localStorage`. -/
structure State where
  currentUser : Option User
  passwords : List PasswordEntry
  store : Storage

/-- How a call ends: it returns a value or an exception leaves it. -/
inductive Completion (α : Type) where
  | returns (value : α)
  | throws
  deriving DecidableEq

/-- A `localStorage` with no key set. -/
def emptyStorage : Storage := ⟨[], none, fun _ => []⟩

/-- The call `localStorage.setItem` on the key `lockvault_passwords_<id>`. -/
def Storage.setPasswords (st : Storage) (id : Nat) (value : List PasswordEntry) : Storage :=
  { st with passwords := fun k => if k = id then value else st.passwords k }

/-! ## Data management -/

/-- The method `getUsers()`. -/
def getUsers (s : State) : List User := s.store.users

/-- The method `loadPasswords()`. -/
def loadPasswords (s : State) : State :=
  match s.currentUser with
  | none => s
  | some user => { s with passwords := s.store.passwords user.id }

/-- The method `savePasswords()`. -/
def savePasswords (s : State) : State :=
  match s.currentUser with
  | none => s
  | some user => { s with store := s.store.setPasswords user.id s.passwords }

/-- The method `loadUserData()`. -/
def loadUserData (s : State) : State :=
  match s.store.currentUser with
  | none => s
  | some userData => loadPasswords { s with currentUser := some userData }

/-! ## Authentication -/

/-- The method `register(username, email, password)`; `now` is `Date.now()` and `stamp` is
`new Date().toISOString()`. -/
def register (username email password : JSString) (now : Nat) (stamp : JSString)
    (s : State) : Bool × State :=
  let users := getUsers s
  if (users.find? fun user => user.username == username || user.email == email).isSome then
    (false, s)
  else if !validatePassword password then
    (false, s)
  else
    let newUser : User :=
      { id := now, username := username, email := email,
        password := hashPassword password, createdAt := stamp }
    let users := users ++ [newUser]
    (true, { s with store := { s.store with users := users } })

/-- The method `login(username, password)`. -/
def login (username password : JSString) (s : State) : Bool × State :=
  let users := getUsers s
  match users.find? fun u => u.username == username || u.email == username with
  | none => (false, s)
  | some user =>
    if !verifyPassword password user.password then (false, s)
    else
      let s := { s with currentUser := some user,
                        store := { s.store with currentUser := some user } }
      (true, loadPasswords s)

/-- The method `logout()`. -/
def logout (s : State) : State :=
  { currentUser := none, passwords := [], store := { s.store with currentUser := none } }

/-! ## Password management -/

/-- The method `addPassword(website, username, password, notes)`. -/
def addPassword (website username password notes : JSString) (now : Nat) (stamp : JSString)
    (s : State) : Completion Bool × State :=
  match s.currentUser with
  | none => (.returns false, s)
  | some currentUser =>
    match encryptPassword password with
    | none => (.throws, s)
    | some encrypted =>
      let newPassword : PasswordEntry :=
        { id := now, website := website, username := username, password := encrypted,
          notes := notes, createdAt := stamp, userId := currentUser.id, updatedAt := none }
      let s := { s with passwords := s.passwords ++ [newPassword] }
      (.returns true, savePasswords s)

/-- The method `updatePassword(id, website, username, password, notes)`. -/
def updatePassword (id : Nat) (website username password notes : JSString) (stamp : JSString)
    (s : State) : Completion Bool × State :=
  match s.passwords.findIdx? fun p => p.id == id with
  | none => (.returns false, s)
  | some index =>
    match encryptPassword password with
    | none => (.throws, s)
    | some encrypted =>
      let s := { s with passwords := List.modify (fun old =>
        { old with website := website, username := username, password := encrypted,
                   notes := notes, updatedAt := some stamp }) index s.passwords }
      (.returns true, savePasswords s)

/-- The method `deletePassword(id)`; `confirmed` is what `confirm(..)` returns. -/
def deletePassword (id : Nat) (confirmed : Bool) (s : State) : State :=
  if confirmed then
    savePasswords { s with passwords := s.passwords.filter fun p => p.id != id }
  else s

/-- An alert raised by `showAlert(message, type)`. -/
structure Alert where
  message : JSString
  kind : JSString
  deriving DecidableEq

/-- The method `deletePassword(id)` together with what its caller can observe of the call:
the alert it raises, if any. The method has no `return` statement, so the value of the call
is `undefined` on every path. -/
def deletePasswordObserved (id : Nat) (confirmed : Bool) (s : State) : Option Alert × State :=
  if confirmed then
    let s := savePasswords { s with passwords := s.passwords.filter fun p => p.id != id }
    (some ⟨js "Password deleted successfully!", js "success"⟩, s)
  else (none, s)

/-- The method `getPassword(id)`. -/
def getPassword (id : Nat) (s : State) : Completion (Option PasswordEntry) :=
  match s.passwords.find? fun p => p.id == id with
  | none => .returns none
  | some password =>
    match decryptPassword password.password with
    | none => .throws
    | some plain => .returns (some { password with password := plain })

/-! ## Construction -/

/-- The method `initializeSampleData()`; `stamp k` is the `k`-th timestamp it reads. -/
def initializeSampleData (stamp : Nat → JSString) (s : State) : Completion State :=
  match s.currentUser with
  | some _ => .returns s
  | none =>
    let users := getUsers s
    if users.length > 0 then .returns s
    else
      let sampleUser : User :=
        { id := 1, username := js "demo", email := js "demo@lockvault.com",
          password := hashPassword (js "Demo123!"), createdAt := stamp 0 }
      let users := users ++ [sampleUser]
      let store := { s.store with users := users }
      match encryptPassword (js "SamplePass123!"), encryptPassword (js "FbPass456!"),
          encryptPassword (js "GitHub789!") with
      | some e1, some e2, some e3 =>
        let samplePasswords : List PasswordEntry :=
          [ { id := 1, website := js "Gmail", username := js "demo@gmail.com", password := e1,
              notes := js "Main email account", createdAt := stamp 1, userId := 1,
              updatedAt := none },
            { id := 2, website := js "Facebook", username := js "demo_user", password := e2,
              notes := js "Social media account", createdAt := stamp 2, userId := 1,
              updatedAt := none },
            { id := 3, website := js "GitHub", username := js "demo_dev", password := e3,
              notes := js "Development platform", createdAt := stamp 3, userId := 1,
              updatedAt := none } ]
        .returns { s with store := store.setPasswords 1 samplePasswords }
      | _, _, _ => .throws

/-- The expression `new LockVault()`: the constructor and the state-changing part of
`init()`, run against the `localStorage` of the page. -/
def construct (store : Storage) (stamp : Nat → JSString) : Completion State :=
  let s : State := { currentUser := none, passwords := [], store := store }
  let s := loadUserData s
  initializeSampleData stamp s

/-- One call of the public operations on a constructed vault. -/
inductive Op where
  | register (username email password : JSString) (now : Nat) (stamp : JSString)
  | login (username password : JSString)
  | logout
  | addPassword (website username password notes : JSString) (now : Nat) (stamp : JSString)
  | updatePassword (id : Nat) (website username password notes : JSString) (stamp : JSString)
  | deletePassword (id : Nat) (confirmed : Bool)

/-- The state after a call. -/
def Op.run : Op → State → State
  | .register u e p now stamp, s => (LockVault.register u e p now stamp s).2
  | .login u p, s => (LockVault.login u p s).2
  | .logout, s => LockVault.logout s
  | .addPassword w u p n now stamp, s => (LockVault.addPassword w u p n now stamp s).2
  | .updatePassword id w u p n stamp, s => (LockVault.updatePassword id w u p n stamp s).2
  | .deletePassword id c, s => LockVault.deletePassword id c s

/-- States of a vault constructed over some `localStorage` and driven by the operations;
a page load is the construction over the storage as it stands. -/
inductive Reachable : State → Prop where
  | construct (store : Storage) (stamp : Nat → JSString) (s : State)
      (h : LockVault.construct store stamp = .returns s) : Reachable s
  | step (op : Op) (s : State) (h : Reachable s) : Reachable (op.run s)

/-! ## The rule set of the specification, in its own words -/

/-- Spec §4.3: the six checks of the evaluator: length at least 8, length at least 12,
contains a lowercase letter, an uppercase letter, a digit, a symbol (a code unit that is
neither an ASCII letter nor an ASCII digit). -/
def sixChecks (candidate : JSString) : List Bool :=
  [ decide (8 ≤ candidate.length),
    decide (12 ≤ candidate.length),
    candidate.any (fun u => decide (97 ≤ u ∧ u ≤ 122)),
    candidate.any (fun u => decide (65 ≤ u ∧ u ≤ 90)),
    candidate.any (fun u => decide (48 ≤ u ∧ u ≤ 57)),
    candidate.any (fun u =>
      !decide ((65 ≤ u ∧ u ≤ 90) ∨ (97 ≤ u ∧ u ≤ 122) ∨ (48 ≤ u ∧ u ≤ 57))) ]

/-- Spec §4.3: the report for a number of points: 0 to 2 is Weak/25, 3 and 4 Fair/50,
5 Good/75, 6 Strong/100; there is no report for more than six points. -/
def reportOfPoints : Nat → Option Strength
  | 0 | 1 | 2 => some ⟨.weak, 25⟩
  | 3 | 4 => some ⟨.fair, 50⟩
  | 5 => some ⟨.good, 75⟩
  | 6 => some ⟨.strong, 100⟩
  | _ => none

/-! ## Inputs of the worked examples -/

/-- A value of `new Date().toISOString()`. -/
def noon : JSString := js "2024-01-01T12:00:00.000Z"

/-- A value of `Date.now()`. -/
def tick : Nat := 1704110400000

/-! ## Objects the operations build -/

/-- The object `newUser` that `register` appends. -/
def newUser (username email password : JSString) (now : Nat) (stamp : JSString) : User :=
  { id := now, username := username, email := email,
    password := hashPassword password, createdAt := stamp }

/-- The object `newPassword` that `addPassword` appends for the owner `userId`, holding the
encoded secret `encrypted`. -/
def newPassword (website username encrypted notes : JSString) (now : Nat) (stamp : JSString)
    (userId : Nat) : PasswordEntry :=
  { id := now, website := website, username := username, password := encrypted,
    notes := notes, createdAt := stamp, userId := userId, updatedAt := none }

/-! ## Base64 in two layers, and tampering -/

/-- The six-bit values of a byte sequence, before padding: three bytes give four values, a
final group of two bytes gives three, of one byte gives two. -/
def sextetsOf : List Nat → List Nat
  | a :: b :: c :: rest =>
    a / 4 :: (a % 4 * 16 + b / 16) :: (b % 16 * 4 + c / 64) :: c % 64 :: sextetsOf rest
  | [a, b] => [a / 4, a % 4 * 16 + b / 16, b % 16 * 4]
  | [a] => [a / 4, a % 4 * 16]
  | [] => []

/-- The number of `=` that follow the characters of a byte sequence. -/
def padLen : List Nat → Nat
  | _ :: _ :: _ :: rest => padLen rest
  | [_, _] => 1
  | [_] => 2
  | [] => 0

/-- The text with bit `k` of its code unit at position `i` flipped. -/
def flipBit (text : JSString) (i k : Nat) : JSString :=
  List.modify (fun u => u ^^^ 2 ^ k) i text

/-- A bit of a base64 character whose flip gives another base64 character: bit 5 swaps the
case of a letter, bit 0 pairs the digits, bit 2 swaps `+` and `/`. -/
def swapBit (c : Nat) : Nat :=
  if 65 ≤ c then 5 else if 48 ≤ c then 0 else 2

/-- A source of `Math.random()` that always returns one half. -/
def half : Nat → Unit01 := fun _ => ⟨1, 1, by decide, by decide, by decide⟩

/-- The double nearest to `0.3`: `5404319552844595 / 2 ^ 54`. -/
def threeTenths : Unit01 := ⟨5404319552844595, 54, by decide, by decide, by decide⟩

/-- The double nearest to `0.7`: `6305039478318694 / 2 ^ 53`. -/
def sevenTenths : Unit01 := ⟨6305039478318694, 53, by decide, by decide, by decide⟩

/-- The record that `updatePassword` writes over `old`: `id`, `userId` and `createdAt` are
those of `old`, the other fields are the arguments, the encoded secret and the time of the
update. -/
def updatedEntry (old : PasswordEntry) (website username encrypted notes stamp : JSString) :
    PasswordEntry :=
  { id := old.id, website := website, username := username, password := encrypted,
    notes := notes, createdAt := old.createdAt, userId := old.userId,
    updatedAt := some stamp }

/-! ## Sessions over a storage that starts empty -/

/-- States of a vault whose `localStorage` starts empty: the first construction, the
operations, and later page loads (a construction over the storage as it then stands). -/
inductive FromEmpty : State → Prop where
  | start (stamp : Nat → JSString) (s : State)
      (h : construct emptyStorage stamp = .returns s) : FromEmpty s
  | reload (stamp : Nat → JSString) (s t : State) (hs : FromEmpty s)
      (h : construct s.store stamp = .returns t) : FromEmpty t
  | step (op : Op) (s : State) (hs : FromEmpty s) : FromEmpty (op.run s)

/-- The records are partitioned by owner id: what is persisted under an owner id carries
that id as `userId`, the set in memory is the persisted set of the current owner, and it
is empty when nobody is logged in. -/
def Partitioned (s : State) : Prop :=
  (∀ k, ∀ p ∈ s.store.passwords k, p.userId = k)
    ∧ (∀ u, s.currentUser = some u → s.passwords = s.store.passwords u.id)
    ∧ (s.currentUser = none → s.passwords = [])

/-- The owner `bob` registers on the clock value `bobNow` and `eve` on `eveNow`; `bob` logs
in, adds a record and logs out, and `eve` logs in. -/
def twoOwnerSession (bobNow eveNow : Nat) (s : State) : State :=
  (login (js "eve") (js "Evepass1!")
    (logout
      (addPassword (js "Bank") (js "bob") (js "one") (js "") (tick + 1) noon
        (login (js "bob") (js "Bobpass1!")
          (register (js "eve") (js "eve@x.io") (js "Evepass1!") eveNow noon
            (register (js "bob") (js "bob@x.io") (js "Bobpass1!") bobNow noon
              s).2).2).2).2)).2

/-! ## Theorems -/

set_option maxRecDepth 100000

theorem reLower_test (s : JSString) :
    reLower.test s = s.any (fun u => decide (97 ≤ u ∧ u ≤ 122)) := by
  unfold CharClass.test
  congr 1
  funext u
  simp [CharClass.hit, ClassItem.hit, reLower]

theorem reUpper_test (s : JSString) :
    reUpper.test s = s.any (fun u => decide (65 ≤ u ∧ u ≤ 90)) := by
  unfold CharClass.test
  congr 1
  funext u
  simp [CharClass.hit, ClassItem.hit, reUpper]

theorem reDigit_test (s : JSString) :
    reDigit.test s = s.any (fun u => decide (48 ≤ u ∧ u ≤ 57)) := by
  unfold CharClass.test
  congr 1
  funext u
  simp [CharClass.hit, ClassItem.hit, reDigit]

theorem reNonAlnum_test (s : JSString) :
    reNonAlnum.test s = s.any (fun u =>
      !decide ((65 ≤ u ∧ u ≤ 90) ∨ (97 ≤ u ∧ u ≤ 122) ∨ (48 ≤ u ∧ u ≤ 57))) := by
  unfold CharClass.test
  congr 1
  funext u
  simp [CharClass.hit, ClassItem.hit, reNonAlnum]

theorem points_table (b1 b2 b3 b4 b5 b6 : Bool) :
    some (if bump b6 (bump b5 (bump b4 (bump b3 (bump b2 (bump b1 0))))) ≤ 2
        then (⟨.weak, 25⟩ : Strength)
      else if bump b6 (bump b5 (bump b4 (bump b3 (bump b2 (bump b1 0))))) ≤ 4
        then ⟨.fair, 50⟩
      else if bump b6 (bump b5 (bump b4 (bump b3 (bump b2 (bump b1 0))))) ≤ 5
        then ⟨.good, 75⟩
      else ⟨.strong, 100⟩)
      = reportOfPoints ([b1, b2, b3, b4, b5, b6].count true) := by
  revert b1 b2 b3 b4 b5 b6
  decide

/-- C1. For every candidate, `getPasswordStrength` returns the report that the table of
the specification gives for the number of the six checks the candidate passes; the empty
string is weak/25, `Abcdef12!` is good/75 and twelve times `a` is fair/50. -/
theorem getPasswordStrength_counts_six_checks (candidate : JSString) :
    some (getPasswordStrength candidate)
        = reportOfPoints ((sixChecks candidate).count true)
      ∧ getPasswordStrength (js "") = ⟨.weak, 25⟩
      ∧ getPasswordStrength (js "Abcdef12!") = ⟨.good, 75⟩
      ∧ getPasswordStrength (js "aaaaaaaaaaaa") = ⟨.fair, 50⟩ := by
  refine ⟨?_, by decide, by decide, by decide⟩
  unfold getPasswordStrength strengthPoints sixChecks
  rw [reLower_test, reUpper_test, reDigit_test, reNonAlnum_test]
  exact points_table _ _ _ _ _ _

theorem reSpecial_hit (u : Nat) : reSpecial.hit u = true ↔ u ∈ specialUnits := by
  simp [CharClass.hit, reSpecial, ClassItem.hit, List.any_map]

theorem reSpecial_test (s : JSString) :
    reSpecial.test s = true ↔ ∃ u ∈ s, u ∈ specialUnits := by
  simp only [CharClass.test, List.any_eq_true, reSpecial_hit]

theorem specialUnits_nonAlnum : ∀ u ∈ specialUnits, reNonAlnum.hit u = true := by
  decide

theorem nonAlnum_of_special (s : JSString) (h : reSpecial.test s = true) :
    reNonAlnum.test s = true := by
  obtain ⟨u, hu, hs⟩ := (reSpecial_test s).1 h
  exact List.any_eq_true.2 ⟨u, hu, specialUnits_nonAlnum u hs⟩

theorem validatePassword_eq_true (candidate : JSString) :
    validatePassword candidate = true ↔
      8 ≤ candidate.length ∧ reUpper.test candidate = true ∧ reLower.test candidate = true
        ∧ reDigit.test candidate = true ∧ reSpecial.test candidate = true := by
  simp [validatePassword, and_assoc]

/-- C2, counterexample. `Abcdef1_` has eight characters and the evaluator credits it with
a lowercase letter, an uppercase letter, a digit and a symbol (report good/75), yet
`validatePassword` rejects it. -/
theorem validatePassword_rejects_credited_symbol :
    8 ≤ (js "Abcdef1_").length
      ∧ reLower.test (js "Abcdef1_") = true
      ∧ reUpper.test (js "Abcdef1_") = true
      ∧ reDigit.test (js "Abcdef1_") = true
      ∧ reNonAlnum.test (js "Abcdef1_") = true
      ∧ getPasswordStrength (js "Abcdef1_") = ⟨.good, 75⟩
      ∧ validatePassword (js "Abcdef1_") = false := by
  decide

/-- C2, amended. `validatePassword` accepts a candidate exactly when its length is at least
8, it passes the lowercase, uppercase and digit checks that `getPasswordStrength` scores,
and it contains one of the twenty characters of the policy class; each of those is a symbol
for the evaluator, so an accepted candidate passes the evaluator's symbol check and scores
at least five points. -/
theorem validatePassword_iff_policy_class (candidate : JSString) :
    (validatePassword candidate = true ↔
        8 ≤ candidate.length ∧ reLower.test candidate = true
          ∧ reUpper.test candidate = true ∧ reDigit.test candidate = true
          ∧ ∃ u ∈ candidate, u ∈ specialUnits)
      ∧ (∀ u ∈ specialUnits, reNonAlnum.hit u = true)
      ∧ (validatePassword candidate = true →
          reNonAlnum.test candidate = true ∧ 5 ≤ strengthPoints candidate) := by
  refine ⟨?_, specialUnits_nonAlnum, ?_⟩
  · rw [validatePassword_eq_true, reSpecial_test]
    tauto
  · intro h
    obtain ⟨h8, hU, hL, hD, hS⟩ := (validatePassword_eq_true candidate).1 h
    have hN := nonAlnum_of_special candidate hS
    refine ⟨hN, ?_⟩
    have h8' : decide (candidate.length ≥ 8) = true := by simpa using h8
    simp only [strengthPoints, h8', hU, hL, hD, hN, bump, if_true]
    split <;> omega

/-- C2, amended, at an input: `Demo123!` is accepted and scores at least five points. -/
theorem validatePassword_iff_policy_class_witness :
    validatePassword (js "Demo123!") = true
      ∧ reNonAlnum.test (js "Demo123!") = true ∧ 5 ≤ strengthPoints (js "Demo123!") :=
  ⟨by decide, (validatePassword_iff_policy_class (js "Demo123!")).2.2 (by decide)⟩

theorem register_fst (username email password : JSString) (now : Nat) (stamp : JSString)
    (s : State) :
    (register username email password now stamp s).1 = true ↔
      (∀ u ∈ s.store.users, u.username ≠ username ∧ u.email ≠ email)
        ∧ validatePassword password = true := by
  unfold register getUsers
  by_cases hdup : (List.find? (fun user => user.username == username || user.email == email)
      s.store.users).isSome = true
  · simp only [hdup, if_true]
    simp only [List.find?_isSome] at hdup
    obtain ⟨u, hu, hm⟩ := hdup
    constructor
    · intro h; cases h
    · rintro ⟨hall, -⟩
      have := hall u hu
      simp at hm
      tauto
  · simp only [hdup]
    have hnone : ∀ u ∈ s.store.users, u.username ≠ username ∧ u.email ≠ email := by
      intro u hu
      simp only [List.find?_isSome, not_exists, not_and] at hdup
      have := hdup u hu
      simp at this
      tauto
    cases hv : validatePassword password
    · simp
    · simpa using hnone

theorem register_snd (username email password : JSString) (now : Nat) (stamp : JSString)
    (s : State) :
    (register username email password now stamp s).2 =
      if (register username email password now stamp s).1 = true then
        { s with store := { s.store with users := s.store.users ++
            [newUser username email password now stamp] } }
      else s := by
  unfold register getUsers
  by_cases hdup : (List.find? (fun user => user.username == username || user.email == email)
      s.store.users).isSome = true
  · simp [hdup]
  · cases hv : validatePassword password <;> simp [hdup, newUser]

/-- C3. `register` succeeds exactly when no stored owner has the same `username` or the
same `email` and the candidate passes `validatePassword`; when it fails the state, and so
the persisted owner set, is as before; when it succeeds the owner set is the old one with
the one new owner appended and nothing else changes; `short1!` is always refused. -/
theorem register_succeeds_iff_and_effect (username email password : JSString) (now : Nat)
    (stamp : JSString) (s : State) :
    ((register username email password now stamp s).1 = true ↔
        (∀ u ∈ s.store.users, u.username ≠ username ∧ u.email ≠ email)
          ∧ validatePassword password = true)
      ∧ ((register username email password now stamp s).2 =
          if (register username email password now stamp s).1 = true then
            { s with store := { s.store with users := s.store.users ++
                [newUser username email password now stamp] } }
          else s)
      ∧ (register username email (js "short1!") now stamp s).1 = false := by
  refine ⟨register_fst _ _ _ _ _ _, register_snd _ _ _ _ _ _, ?_⟩
  have h := register_fst username email (js "short1!") now stamp s
  have hv : validatePassword (js "short1!") = false := by decide
  cases hr : (register username email (js "short1!") now stamp s).1
  · rfl
  · rw [hr] at h
    have := (h.1 rfl).2
    rw [hv] at this
    cases this

theorem verifyPassword_hashPassword (password : JSString) :
    verifyPassword password (hashPassword password) = true := by
  simp [verifyPassword]

theorem find?_append_singleton_of_none {α : Type} (p : α → Bool) (l : List α) (a : α)
    (hl : ∀ x ∈ l, p x = false) (ha : p a = true) : (l ++ [a]).find? p = some a := by
  induction l with
  | nil => simp [List.find?, ha]
  | cons x xs ih =>
    have hx : p x = false := hl x (List.mem_cons_self _ _)
    simp only [List.cons_append, List.find?, hx]
    exact ih (fun y hy => hl y (List.mem_cons_of_mem _ hy))

/-- When `register` succeeds and no older owner has the new `username` as `email`, a `login`
with that `username` and the same candidate succeeds as the new owner. -/
theorem login_after_register_of_no_cross_match (username email password : JSString)
    (now : Nat) (stamp : JSString) (s : State)
    (hreg : (register username email password now stamp s).1 = true)
    (hcross : ∀ u ∈ s.store.users, u.email ≠ username) :
    (login username password (register username email password now stamp s).2).1 = true
      ∧ (login username password (register username email password now stamp s).2).2.currentUser
          = some (newUser username email password now stamp) := by
  have hfst := (register_fst username email password now stamp s).1 hreg
  rw [register_snd, if_pos hreg]
  have hfind : (s.store.users ++ [newUser username email password now stamp]).find?
      (fun u => u.username == username || u.email == username)
      = some (newUser username email password now stamp) := by
    apply find?_append_singleton_of_none
    · intro u hu
      have h1 := (hfst.1 u hu).1
      have h2 := hcross u hu
      simp [h1, h2]
    · simp [newUser]
  have hpw : (newUser username email password now stamp).password = hashPassword password := rfl
  simp only [login, getUsers, hfind, hpw, verifyPassword_hashPassword, loadPasswords]
  simp

/-- When `register` succeeds and no older owner has the new `email` as `username`, a `login`
with that `email` and the same candidate succeeds as the new owner. -/
theorem login_by_email_after_register_of_no_cross_match (username email password : JSString)
    (now : Nat) (stamp : JSString) (s : State)
    (hreg : (register username email password now stamp s).1 = true)
    (hcross : ∀ u ∈ s.store.users, u.username ≠ email) :
    (login email password (register username email password now stamp s).2).1 = true
      ∧ (login email password (register username email password now stamp s).2).2.currentUser
          = some (newUser username email password now stamp) := by
  have hfst := (register_fst username email password now stamp s).1 hreg
  rw [register_snd, if_pos hreg]
  have hfind : (s.store.users ++ [newUser username email password now stamp]).find?
      (fun u => u.username == email || u.email == email)
      = some (newUser username email password now stamp) := by
    apply find?_append_singleton_of_none
    · intro u hu
      have h1 := (hfst.1 u hu).2
      have h2 := hcross u hu
      simp [h1, h2]
    · simp [newUser]
  have hpw : (newUser username email password now stamp).password = hashPassword password := rfl
  simp only [login, getUsers, hfind, hpw, verifyPassword_hashPassword, loadPasswords]
  simp

/-- C4, at the failing input. On a freshly constructed vault (one owner, `demo`, with email
`demo@lockvault.com`) the registration of the login name `demo@lockvault.com` with email
`eve@x.io` succeeds, and the login that follows with that login name and the same candidate
fails: the lookup stops at the older owner and nobody is logged in. -/
theorem login_after_register_resolves_older_owner :
    ∃ s, construct emptyStorage (fun _ => noon) = .returns s
      ∧ (register (js "demo@lockvault.com") (js "eve@x.io") (js "Evepass1!") tick noon s).1
          = true
      ∧ (login (js "demo@lockvault.com") (js "Evepass1!")
          (register (js "demo@lockvault.com") (js "eve@x.io") (js "Evepass1!")
            tick noon s).2).1 = false
      ∧ (login (js "demo@lockvault.com") (js "Evepass1!")
          (register (js "demo@lockvault.com") (js "eve@x.io") (js "Evepass1!")
            tick noon s).2).2.currentUser = none := by
  refine ⟨_, rfl, ?_, ?_, ?_⟩ <;> decide

/-- C5, counterexample. On a freshly constructed vault two registrations that read the same
clock value both succeed and the second owner gets the id of the first; after a login two
adds that read the same clock value give two records with one id. -/
theorem minted_ids_collide_on_equal_clock :
    ∃ s, construct emptyStorage (fun _ => noon) = .returns s
      ∧ (register (js "eve") (js "eve@x.io") (js "Evepass1!") tick noon
          (register (js "bob") (js "bob@x.io") (js "Bobpass1!") tick noon s).2).1 = true
      ∧ ((register (js "eve") (js "eve@x.io") (js "Evepass1!") tick noon
          (register (js "bob") (js "bob@x.io") (js "Bobpass1!") tick noon s).2).2.store.users.map
            fun u => u.id) = [1, tick, tick]
      ∧ (addPassword (js "Mail") (js "eve") (js "two") (js "") tick noon
          (addPassword (js "Bank") (js "eve") (js "one") (js "") tick noon
            (login (js "demo") (js "Demo123!") s).2).2).1 = .returns true
      ∧ ((addPassword (js "Mail") (js "eve") (js "two") (js "") tick noon
          (addPassword (js "Bank") (js "eve") (js "one") (js "") tick noon
            (login (js "demo") (js "Demo123!") s).2).2).2.passwords.map fun p => p.id)
          = [1, 2, 3, tick, tick] := by
  refine ⟨_, rfl, ?_, ?_, ?_, ?_⟩ <;> decide

theorem addPassword_returns_true (website username password notes : JSString) (now : Nat)
    (stamp : JSString) (s : State)
    (h : (addPassword website username password notes now stamp s).1 = .returns true) :
    ∃ user encrypted, s.currentUser = some user ∧ encryptPassword password = some encrypted
      ∧ (addPassword website username password notes now stamp s).2 =
        savePasswords { s with passwords := s.passwords ++
          [newPassword website username encrypted notes now stamp user.id] } := by
  unfold addPassword at h ⊢
  cases hu : s.currentUser with
  | none => simp [hu] at h
  | some user =>
    cases he : encryptPassword password with
    | none => simp [hu, he] at h
    | some encrypted => exact ⟨user, encrypted, rfl, rfl, by simp [newPassword]⟩

theorem savePasswords_passwords (s : State) : (savePasswords s).passwords = s.passwords := by
  unfold savePasswords
  cases s.currentUser <;> rfl

/-- C5, amended. The id that `register` gives the new owner, and the id that `addPassword`
gives the new record, is the clock value read by the call; so it differs from every id
already in the owner set, or in the record set, whenever that clock value is not yet an id
there. -/
theorem minted_id_is_clock_value :
    (∀ (username email password : JSString) (now : Nat) (stamp : JSString) (s : State),
      (register username email password now stamp s).1 = true →
      ∃ o, (register username email password now stamp s).2.store.users
            = s.store.users ++ [o]
        ∧ o.id = now
        ∧ ((∀ u ∈ s.store.users, u.id ≠ now) → ∀ u ∈ s.store.users, u.id ≠ o.id))
    ∧ (∀ (website username password notes : JSString) (now : Nat) (stamp : JSString)
        (s : State),
      (addPassword website username password notes now stamp s).1 = .returns true →
      ∃ e, (addPassword website username password notes now stamp s).2.passwords
            = s.passwords ++ [e]
        ∧ e.id = now
        ∧ ((∀ p ∈ s.passwords, p.id ≠ now) → ∀ p ∈ s.passwords, p.id ≠ e.id)) := by
  constructor
  · intro username email password now stamp s h
    rw [register_snd, if_pos h]
    exact ⟨_, rfl, rfl, fun hf => hf⟩
  · intro website username password notes now stamp s h
    obtain ⟨user, encrypted, -, -, heq⟩ := addPassword_returns_true _ _ _ _ _ _ _ h
    rw [heq, savePasswords_passwords]
    exact ⟨_, rfl, rfl, fun hf => hf⟩

/-- C5, amended, at an input: on a freshly constructed vault a registration that reads the
clock value `tick` succeeds, and `tick` is not yet an owner id there. -/
theorem minted_id_is_clock_value_witness :
    ∃ s, construct emptyStorage (fun _ => noon) = .returns s
      ∧ (∀ u ∈ s.store.users, u.id ≠ tick)
      ∧ ∃ o, (register (js "eve") (js "eve@x.io") (js "Evepass1!") tick noon s).2.store.users
            = s.store.users ++ [o]
        ∧ o.id = tick
        ∧ ((∀ u ∈ s.store.users, u.id ≠ tick) → ∀ u ∈ s.store.users, u.id ≠ o.id) :=
  ⟨_, rfl, by decide,
    minted_id_is_clock_value.1 (js "eve") (js "eve@x.io") (js "Evepass1!") tick noon _
      (by decide)⟩

/-! ### Base64 -/

theorem b64index_b64char (v : Nat) (h : v < 64) : b64index (b64char v) = v := by
  revert v
  decide

theorem isBase64Char_b64char (v : Nat) (h : v < 64) : isBase64Char (b64char v) = true := by
  revert v
  decide

theorem isBase64Char_not_whitespace (c : Nat) (h : isBase64Char c = true) :
    isAsciiWhitespace c = false := by
  simp only [isBase64Char, isAsciiWhitespace, Bool.or_eq_true, Bool.and_eq_true, beq_iff_eq,
    decide_eq_true_eq, Bool.or_eq_false_iff, beq_eq_false_iff_ne] at h ⊢
  omega

theorem isBase64Char_ne_pad (c : Nat) (h : isBase64Char c = true) : c ≠ 61 := by
  simp only [isBase64Char, Bool.or_eq_true, Bool.and_eq_true, beq_iff_eq,
    decide_eq_true_eq] at h
  omega

theorem filter_whitespace_base64 (cs : List Nat) (k : Nat)
    (hcs : ∀ c ∈ cs, isBase64Char c = true) :
    (cs ++ List.replicate k 61).filter (fun c => !isAsciiWhitespace c)
      = cs ++ List.replicate k 61 := by
  rw [List.filter_eq_self]
  intro c hc
  rcases List.mem_append.1 hc with h | h
  · simp [isBase64Char_not_whitespace c (hcs c h)]
  · rw [List.eq_of_mem_replicate h]
    decide

theorem getLast?_ne_pad (cs : List Nat) (hcs : ∀ c ∈ cs, isBase64Char c = true) :
    cs.getLast? ≠ some 61 := by
  intro h
  have hm : (61 : Nat) ∈ cs := List.mem_of_getLast?_eq_some h
  exact isBase64Char_ne_pad 61 (hcs 61 hm) rfl

theorem stripPadding_base64 (cs : List Nat) (k : Nat)
    (hcs : ∀ c ∈ cs, isBase64Char c = true) (hk : k ≤ 2)
    (hlen : (cs.length + k) % 4 = 0) :
    stripPadding (cs ++ List.replicate k 61) = cs := by
  have hl : (cs ++ List.replicate k 61).length % 4 = 0 := by simpa using hlen
  have hne := getLast?_ne_pad cs hcs
  unfold stripPadding
  rw [if_pos hl]
  have hk3 : k = 0 ∨ k = 1 ∨ k = 2 := by omega
  rcases hk3 with rfl | rfl | rfl
  · simp [hne]
  · have : List.replicate 1 61 = [61] := rfl
    rw [this, List.getLast?_concat, if_pos rfl, List.dropLast_concat, if_neg hne]
  · have : cs ++ List.replicate 2 61 = (cs ++ [61]) ++ [61] := by simp [List.replicate]
    rw [this, List.getLast?_concat, if_pos rfl, List.dropLast_concat, List.getLast?_concat,
      if_pos rfl, List.dropLast_concat]

/-- What `atob` returns on base64 characters followed by at most two `=` that fill the
last group of four. -/
theorem atob_base64 (cs : List Nat) (k : Nat)
    (hcs : ∀ c ∈ cs, isBase64Char c = true) (hk : k ≤ 2)
    (hlen : (cs.length + k) % 4 = 0) :
    atob (cs ++ List.replicate k 61) = some (decodeSextets (cs.map b64index)) := by
  unfold atob
  simp only [filter_whitespace_base64 cs k hcs, stripPadding_base64 cs k hcs hk hlen]
  have h1 : ¬ cs.length % 4 = 1 := by omega
  have h2 : cs.all isBase64Char = true := List.all_eq_true.2 hcs
  rw [if_neg h1, if_pos h2]

theorem base64Encode_eq (bytes : List Nat) :
    base64Encode bytes = (sextetsOf bytes).map b64char ++ List.replicate (padLen bytes) 61 := by
  induction bytes using base64Encode.induct with
  | case1 a b c rest ih => simp [base64Encode, sextetsOf, padLen, ih]
  | case2 a b => simp [base64Encode, sextetsOf, padLen, List.replicate]
  | case3 a => simp [base64Encode, sextetsOf, padLen, List.replicate]
  | case4 => simp [base64Encode, sextetsOf, padLen]

theorem sextetsOf_lt (bytes : List Nat) (hb : ∀ c ∈ bytes, c ≤ 255) :
    ∀ v ∈ sextetsOf bytes, v < 64 := by
  induction bytes using base64Encode.induct with
  | case1 a b c rest ih =>
    have ha := hb a (by simp)
    have hb' := hb b (by simp)
    have hc := hb c (by simp)
    have ih' := ih (fun x hx => hb x (by simp [hx]))
    intro v hv
    simp only [sextetsOf, List.mem_cons] at hv
    rcases hv with rfl | rfl | rfl | rfl | hv
    · omega
    · omega
    · omega
    · omega
    · exact ih' v hv
  | case2 a b =>
    have ha := hb a (by simp)
    have hb' := hb b (by simp)
    intro v hv
    simp only [sextetsOf, List.mem_cons, List.mem_singleton, List.not_mem_nil, or_false] at hv
    rcases hv with rfl | rfl | rfl <;> omega
  | case3 a =>
    have ha := hb a (by simp)
    intro v hv
    simp only [sextetsOf, List.mem_cons, List.mem_singleton, List.not_mem_nil, or_false] at hv
    rcases hv with rfl | rfl <;> omega
  | case4 => simp [sextetsOf]

theorem sextetsOf_length (bytes : List Nat) :
    ((sextetsOf bytes).length + padLen bytes) % 4 = 0 ∧ padLen bytes ≤ 2 := by
  induction bytes using base64Encode.induct with
  | case1 a b c rest ih =>
    simp only [sextetsOf, padLen, List.length_cons]
    omega
  | case2 a b => simp [sextetsOf, padLen]
  | case3 a => simp [sextetsOf, padLen]
  | case4 => simp [sextetsOf, padLen]

theorem decodeSextets_sextetsOf (bytes : List Nat) (hb : ∀ c ∈ bytes, c ≤ 255) :
    decodeSextets (sextetsOf bytes) = bytes := by
  induction bytes using base64Encode.induct with
  | case1 a b c rest ih =>
    have ha := hb a (by simp)
    have hb' := hb b (by simp)
    have hc := hb c (by simp)
    have ih' := ih (fun x hx => hb x (by simp [hx]))
    simp only [sextetsOf, decodeSextets, ih', List.cons.injEq, and_true]
    refine ⟨?_, ?_, ?_⟩ <;> omega
  | case2 a b =>
    have ha := hb a (by simp)
    have hb' := hb b (by simp)
    simp only [sextetsOf, decodeSextets, List.cons.injEq, and_true]
    refine ⟨?_, ?_⟩ <;> omega
  | case3 a =>
    have ha := hb a (by simp)
    simp only [sextetsOf, decodeSextets, List.cons.injEq, and_true]
    omega
  | case4 => simp [sextetsOf, decodeSextets]

theorem map_b64index_b64char (vs : List Nat) (hv : ∀ v ∈ vs, v < 64) :
    (vs.map b64char).map b64index = vs := by
  rw [List.map_map]
  conv_rhs => rw [← List.map_id vs]
  exact List.map_congr_left (fun v h => b64index_b64char v (hv v h))

/-- On a secret whose code units are all at most `0xFF`, `encryptPassword` returns a text
that `decryptPassword` turns back into the secret. -/
theorem decrypt_encrypt_of_latin1 (secret : JSString) (hb : ∀ c ∈ secret, c ≤ 255) :
    ∃ e, encryptPassword secret = some e ∧ decryptPassword e = some secret := by
  have hall : secret.all (fun c => decide (c ≤ 255)) = true := by
    rw [List.all_eq_true]
    intro c hc
    simpa using hb c hc
  refine ⟨base64Encode secret, by simp [encryptPassword, btoa, hall], ?_⟩
  have hlen := sextetsOf_length secret
  have hlt := sextetsOf_lt secret hb
  have hcs : ∀ c ∈ (sextetsOf secret).map b64char, isBase64Char c = true := by
    intro c hc
    obtain ⟨v, hv, rfl⟩ := List.mem_map.1 hc
    exact isBase64Char_b64char v (hlt v hv)
  unfold decryptPassword
  rw [base64Encode_eq, atob_base64 _ _ hcs hlen.2 (by simpa using hlen.1),
    map_b64index_b64char _ hlt, decodeSextets_sextetsOf _ hb]

/-- C6, at the failing input. The secret `pass€word` has a code unit above `0xFF`: `btoa`
throws on it, so `encryptPassword` has no result to decrypt, and an `addPassword` with that
secret in a logged-in session ends by the exception and stores nothing. -/
theorem encryptPassword_throws_above_latin1 :
    encryptPassword (js "pass€word") = none
      ∧ ∃ s, construct emptyStorage (fun _ => noon) = .returns s
        ∧ (login (js "demo") (js "Demo123!") s).1 = true
        ∧ (addPassword (js "Shop") (js "demo") (js "pass€word") (js "") tick noon
            (login (js "demo") (js "Demo123!") s).2).1 = .throws
        ∧ (addPassword (js "Shop") (js "demo") (js "pass€word") (js "") tick noon
            (login (js "demo") (js "Demo123!") s).2).2.passwords
              = (login (js "demo") (js "Demo123!") s).2.passwords := by
  refine ⟨by decide, _, rfl, ?_, ?_, ?_⟩ <;> decide

/-- C7, counterexample. The ciphertext of `a` is `YQ==`; with the lowest bit of its first
character flipped it is `XQ==`, which `decryptPassword` accepts and turns into `]`; with
bit 1 of its second character flipped it is `YS==`, which it accepts and turns into `a`. -/
theorem decryptPassword_accepts_flipped_ciphertext :
    encryptPassword (js "a") = some (js "YQ==")
      ∧ flipBit (js "YQ==") 0 0 = js "XQ=="
      ∧ decryptPassword (flipBit (js "YQ==") 0 0) = some (js "]")
      ∧ js "]" ≠ js "a"
      ∧ flipBit (js "YQ==") 1 1 = js "YS=="
      ∧ decryptPassword (flipBit (js "YQ==") 1 1) = some (js "a") := by
  decide

theorem swapBit_spec (v : Nat) (h : v < 64) :
    swapBit (b64char v) < 8
      ∧ isBase64Char (b64char v ^^^ 2 ^ swapBit (b64char v)) = true
      ∧ b64index (b64char v ^^^ 2 ^ swapBit (b64char v)) ≠ v := by
  revert v
  decide

theorem sextetsOf_cons (a : Nat) (rest : List Nat) :
    ∃ v vs, sextetsOf (a :: rest) = a / 4 :: v :: vs := by
  match rest with
  | [] => exact ⟨_, _, rfl⟩
  | [b] => exact ⟨_, _, rfl⟩
  | b :: c :: r => exact ⟨_, _, rfl⟩

theorem decodeSextets_head? (a b : Nat) (r : List Nat) :
    (decodeSextets (a :: b :: r)).head? = some (a * 4 + b / 16) := by
  match r with
  | [] => rfl
  | [c] => rfl
  | c :: d :: r => rfl

/-- C7, amended. `decryptPassword` checks no tag: for every non-empty secret that
`encryptPassword` accepts (code units at most `0xFF`) there is a bit of the first character
of the ciphertext whose flip gives a text that `decryptPassword` accepts, and the plaintext
it returns is different from the secret. -/
theorem decryptPassword_accepts_some_flip (secret : JSString) (hne : secret ≠ [])
    (hb : ∀ c ∈ secret, c ≤ 255) :
    ∃ e, encryptPassword secret = some e
      ∧ ∃ k, k < 8 ∧ ∃ t, decryptPassword (flipBit e 0 k) = some t ∧ t ≠ secret := by
  have hall : secret.all (fun c => decide (c ≤ 255)) = true := by
    rw [List.all_eq_true]
    intro c hc
    simpa using hb c hc
  refine ⟨base64Encode secret, by simp [encryptPassword, btoa, hall], ?_⟩
  obtain ⟨a, rest, rfl⟩ := List.exists_cons_of_ne_nil hne
  obtain ⟨v, vs, hsx⟩ := sextetsOf_cons a rest
  have hlen := sextetsOf_length (a :: rest)
  have hlt := sextetsOf_lt (a :: rest) hb
  have hdec := decodeSextets_sextetsOf (a :: rest) hb
  rw [hsx] at hlen hlt hdec
  have h0 : a / 4 < 64 := hlt _ (by simp)
  obtain ⟨hk, hchar, hidx⟩ := swapBit_spec (a / 4) h0
  have htail : ∀ x ∈ v :: vs, x < 64 := fun x hx => hlt x (List.mem_cons_of_mem _ hx)
  refine ⟨swapBit (b64char (a / 4)), hk, ?_⟩
  have hflip : flipBit (base64Encode (a :: rest)) 0 (swapBit (b64char (a / 4)))
      = ((b64char (a / 4) ^^^ 2 ^ swapBit (b64char (a / 4))) :: (v :: vs).map b64char)
          ++ List.replicate (padLen (a :: rest)) 61 := by
    rw [base64Encode_eq, hsx]
    simp [flipBit, List.modify]
  have hcs : ∀ c ∈ (b64char (a / 4) ^^^ 2 ^ swapBit (b64char (a / 4)))
      :: (v :: vs).map b64char, isBase64Char c = true := by
    intro c hc
    rcases List.mem_cons.1 hc with rfl | hc
    · exact hchar
    · obtain ⟨x, hx, rfl⟩ := List.mem_map.1 hc
      exact isBase64Char_b64char x (htail x hx)
  have hl : (((b64char (a / 4) ^^^ 2 ^ swapBit (b64char (a / 4)))
      :: (v :: vs).map b64char).length + padLen (a :: rest)) % 4 = 0 := by
    simpa using hlen.1
  refine ⟨decodeSextets (((b64char (a / 4) ^^^ 2 ^ swapBit (b64char (a / 4)))
      :: (v :: vs).map b64char).map b64index), ?_, ?_⟩
  · unfold decryptPassword
    rw [hflip, atob_base64 _ _ hcs hlen.2 hl]
  · intro heq
    have hmap : ((b64char (a / 4) ^^^ 2 ^ swapBit (b64char (a / 4)))
        :: (v :: vs).map b64char).map b64index
        = b64index (b64char (a / 4) ^^^ 2 ^ swapBit (b64char (a / 4))) :: v :: vs := by
      rw [List.map_cons, map_b64index_b64char _ htail]
    rw [hmap] at heq
    have h1 := decodeSextets_head? (b64index (b64char (a / 4) ^^^ 2 ^ swapBit (b64char (a / 4))))
      v vs
    have h2 := decodeSextets_head? (a / 4) v vs
    rw [heq] at h1
    rw [hdec] at h2
    rw [h1] at h2
    simp only [Option.some.injEq] at h2
    omega

/-- C7, amended, at an input: the secret `a`. -/
theorem decryptPassword_accepts_some_flip_witness :
    js "a" ≠ [] ∧ (∀ c ∈ js "a", c ≤ 255)
      ∧ ∃ e, encryptPassword (js "a") = some e
        ∧ ∃ k, k < 8 ∧ ∃ t, decryptPassword (flipBit e 0 k) = some t ∧ t ≠ js "a" :=
  ⟨by decide, by decide,
    decryptPassword_accepts_some_flip (js "a") (by decide) (by decide)⟩

/-! ### Generator -/

theorem excessBits_pow_le (fuel x : Nat) :
    excessBits fuel x = 0 ∨ 2 ^ (excessBits fuel x + 52) ≤ x := by
  induction fuel generalizing x with
  | zero => exact Or.inl rfl
  | succ fuel ih =>
    unfold excessBits
    split
    · exact Or.inl rfl
    · rename_i hx
      refine Or.inr ?_
      rcases ih (x / 2) with h0 | h
      · rw [h0]
        exact Nat.le_of_not_lt hx
      · have hpow : 2 ^ (excessBits fuel (x / 2) + 1 + 52)
            = 2 * 2 ^ (excessBits fuel (x / 2) + 52) := by
          rw [show excessBits fuel (x / 2) + 1 + 52 = excessBits fuel (x / 2) + 52 + 1 by omega,
            Nat.pow_succ, Nat.mul_comm]
        rw [hpow]
        omega

/-- With the integer itself as fuel, `excessBits` leaves at most 53 significant bits. -/
theorem excessBits_fits (fuel x : Nat) (h : x ≤ fuel) :
    x / 2 ^ excessBits fuel x < 2 ^ 53 := by
  induction fuel generalizing x with
  | zero =>
    have hx : x = 0 := by omega
    subst hx
    decide
  | succ fuel ih =>
    unfold excessBits
    split
    · rename_i hx
      simpa using hx
    · have hle : x / 2 ≤ fuel := by omega
      have := ih (x / 2) hle
      rw [Nat.pow_succ, Nat.mul_comm, ← Nat.div_div_eq_div_mul]
      exact this

/-- The rounding error of `roundSig53` is at most half a unit in the last place. -/
theorem roundSig53_le (x : Nat) : roundSig53 x ≤ x + x / 2 ^ 53 := by
  unfold roundSig53
  split
  · exact Nat.le_add_right _ _
  · rename_i hx
    have hx53 : 2 ^ 53 ≤ x := Nat.le_of_not_lt hx
    have hone : 1 ≤ x / 2 ^ 53 := (Nat.le_div_iff_mul_le (by decide)).2 (by simpa using hx53)
    simp only []
    rcases Nat.eq_zero_or_pos (excessBits x x) with h0 | hpos
    · rw [h0]
      simp only [Nat.pow_zero, Nat.div_one, Nat.mul_one, Nat.mod_one]
      split <;> omega
    · obtain ⟨t, ht⟩ : ∃ t, excessBits x x = t + 1 := ⟨excessBits x x - 1, by omega⟩
      have hpw := excessBits_pow_le x x
      rw [ht] at hpw ⊢
      rcases hpw with h | hpw
      · omega
      · have h2 : 2 ^ (t + 1) = 2 * 2 ^ t := by rw [Nat.pow_succ, Nat.mul_comm]
        have hP : 2 ^ t ≤ x / 2 ^ 53 := by
          rw [Nat.le_div_iff_mul_le (by decide)]
          calc 2 ^ t * 2 ^ 53 = 2 ^ (t + 1 + 52) := by
                rw [← Nat.pow_add]
            _ ≤ x := hpw
        have hdm := Nat.div_add_mod x (2 * 2 ^ t)
        have hhalf : 2 * 2 ^ t / 2 = 2 ^ t := by omega
        rw [h2, hhalf]
        generalize 2 ^ t = P at *
        have hmul : (x / (2 * P) + 1) * (2 * P) = 2 * P * (x / (2 * P)) + 2 * P := by ring
        have hmul2 : x / (2 * P) * (2 * P) = 2 * P * (x / (2 * P)) := by ring
        generalize x % (2 * P) = rest at *
        generalize 2 * P * (x / (2 * P)) = Y at *
        split
        · rw [hmul]
          omega
        · rw [hmul2]
          omega

/-- The index that the generator computes is below the length of the pool, in double
arithmetic. -/
theorem floorMul_lt (r : Unit01) (n : Nat) (hn : 0 < n) : r.floorMul n < n := by
  unfold Unit01.floorMul
  rw [Nat.div_lt_iff_lt_mul (Nat.pos_pow_of_pos _ (by decide))]
  have hround := roundSig53_le (r.sig * n)
  have herr : r.sig * n / 2 ^ 53 < n := by
    rw [Nat.div_lt_iff_lt_mul (by decide)]
    exact Nat.mul_lt_mul_of_lt_of_le r.sig_lt (Nat.le_refl n) hn |>.trans_le (by
      rw [Nat.mul_comm])
  have hsum : r.sig * n + n ≤ n * 2 ^ r.exp := by
    have h1 : r.sig + 1 ≤ 2 ^ r.exp := r.lt_one
    calc r.sig * n + n = (r.sig + 1) * n := by ring
      _ ≤ 2 ^ r.exp * n := Nat.mul_le_mul_right n h1
      _ = n * 2 ^ r.exp := Nat.mul_comm _ _
  omega

/-- The index follows the rounded product, not the exact one: the doubles nearest to `0.3`
and `0.7` times ten round to `3` and `7`, where the exact products are just below. -/
theorem floorMul_rounds_product :
    threeTenths.floorMul 10 = 3 ∧ threeTenths.sig * 10 / 2 ^ threeTenths.exp = 2
      ∧ sevenTenths.floorMul 10 = 7 ∧ sevenTenths.sig * 10 / 2 ^ sevenTenths.exp = 6
      ∧ (half 0).floorMul 10 = 5 := by
  decide

theorem charAt_of_lt (s : JSString) (i : Nat) (h : i < s.length) :
    ∃ c, c ∈ s ∧ charAt s i = [c] := by
  unfold charAt
  rw [List.get?_eq_get h]
  exact ⟨_, List.get_mem _ _ _, rfl⟩

theorem draw_loop (charset : JSString) (idx : Nat → Nat)
    (hidx : ∀ i, idx i < charset.length) (l : List Nat) (acc : JSString) :
    (l.foldl (fun password i => password ++ charAt charset (idx i)) acc).length
        = acc.length + l.length
      ∧ ∀ c ∈ l.foldl (fun password i => password ++ charAt charset (idx i)) acc,
          c ∈ acc ∨ c ∈ charset := by
  induction l generalizing acc with
  | nil => exact ⟨rfl, fun c hc => Or.inl hc⟩
  | cons i l ih =>
    obtain ⟨x, hx, hat⟩ := charAt_of_lt charset (idx i) (hidx i)
    obtain ⟨h1, h2⟩ := ih (acc ++ charAt charset (idx i))
    simp only [List.foldl_cons]
    refine ⟨?_, ?_⟩
    · rw [h1, hat]
      simp only [List.length_append, List.length_cons, List.length_nil]
      omega
    · intro c hc
      rcases h2 c hc with h | h
      · rw [hat] at h
        rcases List.mem_append.1 h with h | h
        · exact Or.inl h
        · rw [List.mem_singleton] at h
          exact Or.inr (h ▸ hx)
      · exact Or.inr h

theorem mem_buildCharset (upper lower numbers symbols : Bool) (c : Nat) :
    c ∈ buildCharset upper lower numbers symbols ↔
      (lower = true ∧ c ∈ lowerChars) ∨ (upper = true ∧ c ∈ upperChars)
        ∨ (numbers = true ∧ c ∈ numberChars) ∨ (symbols = true ∧ c ∈ symbolChars) := by
  cases upper <;> cases lower <;> cases numbers <;> cases symbols <;>
    simp [buildCharset, or_assoc]

theorem buildCharset_eq_nil (upper lower numbers symbols : Bool) :
    buildCharset upper lower numbers symbols = [] ↔
      upper = false ∧ lower = false ∧ numbers = false ∧ symbols = false := by
  revert upper lower numbers symbols
  decide

/-- C8. For a length of at least one and any values of `Math.random()`: with no class
enabled `generatePassword` returns the empty string; otherwise it returns a non-empty
string of exactly `length` characters, each from the alphabet of an enabled class; with
only digits enabled and length 16 the sixteen characters are all in `0`-`9`. -/
theorem generatePassword_length_and_alphabet (length : Nat) (upper lower numbers symbols : Bool)
    (random : Nat → Unit01) (hlen : 1 ≤ length) :
    ((upper = false ∧ lower = false ∧ numbers = false ∧ symbols = false) →
        generatePassword ⟨some length, some upper, some lower, some numbers, some symbols⟩
          random = [])
      ∧ (¬ (upper = false ∧ lower = false ∧ numbers = false ∧ symbols = false) →
        (generatePassword ⟨some length, some upper, some lower, some numbers, some symbols⟩
            random).length = length
          ∧ generatePassword ⟨some length, some upper, some lower, some numbers, some symbols⟩
              random ≠ []
          ∧ ∀ c ∈ generatePassword
              ⟨some length, some upper, some lower, some numbers, some symbols⟩ random,
              (lower = true ∧ c ∈ lowerChars) ∨ (upper = true ∧ c ∈ upperChars)
                ∨ (numbers = true ∧ c ∈ numberChars) ∨ (symbols = true ∧ c ∈ symbolChars))
      ∧ ((generatePassword ⟨some 16, some false, some false, some true, some false⟩
            random).length = 16
          ∧ ∀ c ∈ generatePassword ⟨some 16, some false, some false, some true, some false⟩
              random, 48 ≤ c ∧ c ≤ 57) := by
  have key : ∀ (n : Nat) (u l d y : Bool), buildCharset u l d y ≠ [] →
      (generatePassword ⟨some n, some u, some l, some d, some y⟩ random).length = n
        ∧ ∀ c ∈ generatePassword ⟨some n, some u, some l, some d, some y⟩ random,
            c ∈ buildCharset u l d y := by
    intro n u l d y hne
    have hpos : 0 < (buildCharset u l d y).length := List.length_pos.2 hne
    obtain ⟨h1, h2⟩ := draw_loop (buildCharset u l d y)
      (fun i => (random i).floorMul (buildCharset u l d y).length)
      (fun i => floorMul_lt _ _ hpos) (List.range n) []
    simp only [generatePassword, Option.getD_some, if_neg hne]
    refine ⟨by simpa using h1, ?_⟩
    intro c hc
    rcases h2 c hc with h | h
    · cases h
    · exact h
  refine ⟨?_, ?_, ?_⟩
  · intro hnone
    have he := (buildCharset_eq_nil upper lower numbers symbols).2 hnone
    simp [generatePassword, he]
  · intro hsome
    have hne : buildCharset upper lower numbers symbols ≠ [] :=
      fun he => hsome ((buildCharset_eq_nil _ _ _ _).1 he)
    obtain ⟨h1, h2⟩ := key length upper lower numbers symbols hne
    refine ⟨h1, ?_, ?_⟩
    · intro he
      rw [he] at h1
      simp at h1
      omega
    · intro c hc
      exact (mem_buildCharset _ _ _ _ c).1 (h2 c hc)
  · obtain ⟨h1, h2⟩ := key 16 false false true false (by decide)
    refine ⟨h1, ?_⟩
    intro c hc
    have hm := h2 c hc
    have hdigits : ∀ x ∈ buildCharset false false true false, 48 ≤ x ∧ x ≤ 57 := by decide
    exact hdigits c hm

/-- C8, at an input: ten characters asked with no class enabled, sixteen with only digits
enabled, and three digits drawn with `Math.random()` at the double nearest to `0.3`. -/
theorem generatePassword_length_and_alphabet_witness :
    (generatePassword ⟨some 10, some false, some false, some false, some false⟩ half = [])
      ∧ (generatePassword ⟨some 16, some false, some false, some true, some false⟩ half).length
          = 16
      ∧ (∀ c ∈ generatePassword ⟨some 16, some false, some false, some true, some false⟩ half,
          48 ≤ c ∧ c ≤ 57)
      ∧ generatePassword ⟨some 3, some false, some false, some true, some false⟩
          (fun _ => threeTenths) = js "333" :=
  ⟨(generatePassword_length_and_alphabet 10 false false false false half (by decide)).1
      ⟨rfl, rfl, rfl, rfl⟩,
    (generatePassword_length_and_alphabet 16 false false true false half (by decide)).2.2.1,
    (generatePassword_length_and_alphabet 16 false false true false half (by decide)).2.2.2,
    by decide⟩

/-! ### Session -/

theorem savePasswords_currentUser (s : State) :
    (savePasswords s).currentUser = s.currentUser := by
  unfold savePasswords
  split <;> rfl

theorem savePasswords_of_none (s : State) (h : s.currentUser = none) : savePasswords s = s := by
  unfold savePasswords
  rw [h]

theorem modify_nil {α : Type} (f : α → α) (n : Nat) : List.modify f n [] = [] := by
  cases n <;> rfl

theorem construct_inv (store : Storage) (stamp : Nat → JSString) (s : State)
    (h : construct store stamp = .returns s) (hn : s.currentUser = none) : s.passwords = [] := by
  unfold construct loadUserData at h
  cases hc : store.currentUser with
  | none =>
    simp only [hc, initializeSampleData, getUsers] at h
    split at h
    · cases h; rfl
    · split at h
      · cases h; rfl
      · cases h
  | some u =>
    simp only [hc, loadPasswords, initializeSampleData] at h
    cases h
    cases hn

theorem run_inv (op : Op) (s : State) (ih : s.currentUser = none → s.passwords = [])
    (hn : (op.run s).currentUser = none) : (op.run s).passwords = [] := by
  cases op with
  | register u e p now stamp =>
    simp only [Op.run, register_snd] at hn ⊢
    by_cases hr : (register u e p now stamp s).1 = true
    · simp only [hr, if_true] at hn ⊢
      exact ih hn
    · simp only [hr, if_false] at hn ⊢
      exact ih hn
  | login u p =>
    simp only [Op.run, login, getUsers] at hn ⊢
    cases hf : List.find? (fun x => x.username == u || x.email == u) s.store.users with
    | none =>
      simp only [hf] at hn ⊢
      exact ih hn
    | some user =>
      simp only [hf] at hn ⊢
      cases hv : verifyPassword p user.password with
      | false =>
        simp only [hv, Bool.not_false, if_true] at hn ⊢
        exact ih hn
      | true => simp [hv, loadPasswords] at hn
  | logout => rfl
  | addPassword w u p n now stamp =>
    simp only [Op.run, addPassword] at hn ⊢
    cases hc : s.currentUser with
    | none =>
      simp only [hc] at hn ⊢
      exact ih hc
    | some cu =>
      simp only [hc] at hn ⊢
      cases he : encryptPassword p with
      | none =>
        simp only [he] at hn ⊢
        exact ih hn
      | some enc =>
        simp only [he, savePasswords_currentUser] at hn
        cases hn
  | updatePassword id w u p n stamp =>
    simp only [Op.run, updatePassword] at hn ⊢
    cases hf : List.findIdx? (fun q => q.id == id) s.passwords with
    | none =>
      simp only [hf] at hn ⊢
      exact ih hn
    | some index =>
      simp only [hf] at hn ⊢
      cases he : encryptPassword p with
      | none =>
        simp only [he] at hn ⊢
        exact ih hn
      | some enc =>
        simp only [he, savePasswords_currentUser, savePasswords_passwords] at hn ⊢
        rw [ih hn, modify_nil]
  | deletePassword id c =>
    simp only [Op.run, deletePassword] at hn ⊢
    cases c with
    | false =>
      simp only [Bool.false_eq_true, if_false] at hn ⊢
      exact ih hn
    | true =>
      simp only [if_true, savePasswords_currentUser, savePasswords_passwords] at hn ⊢
      rw [ih hn]
      rfl

/-- The invariant of the session: without a current owner the in-memory record set is
empty. -/
theorem reachable_inv (s : State) (hr : Reachable s) (hn : s.currentUser = none) :
    s.passwords = [] := by
  induction hr with
  | construct store stamp s h => exact construct_inv store stamp s h hn
  | step op s _ ih => exact run_inv op s ih hn

/-- C9. In every state reachable from construction through register, login, logout, add,
update and delete in which no owner is logged in: `addPassword` and `updatePassword` return
`false`, `getPassword` returns `null`, and these three and `deletePassword` (confirmed or
not) leave the whole state, in memory and persisted, as it was. -/
theorem unauthenticated_operations_change_nothing (s : State) (hr : Reachable s)
    (hn : s.currentUser = none) (id : Nat) (website username password notes : JSString)
    (now : Nat) (stamp : JSString) (confirmed : Bool) :
    addPassword website username password notes now stamp s = (.returns false, s)
      ∧ updatePassword id website username password notes stamp s = (.returns false, s)
      ∧ getPassword id s = .returns none
      ∧ deletePassword id confirmed s = s := by
  have hp := reachable_inv s hr hn
  refine ⟨?_, ?_, ?_, ?_⟩
  · simp [addPassword, hn]
  · simp [updatePassword, hp]
  · simp [getPassword, hp]
  · unfold deletePassword
    cases confirmed
    · rfl
    · have hs : ({ s with passwords := s.passwords.filter fun p => p.id != id } : State) = s := by
        cases s
        simp at hp ⊢
        simp [hp]
      simp only [if_true, hs]
      exact savePasswords_of_none s hn

/-- C9, at an input: the vault constructed over an empty storage, after a login, an add and
a logout. -/
theorem unauthenticated_operations_change_nothing_witness :
    ∃ s, construct emptyStorage (fun _ => noon) = .returns s
      ∧ (Op.logout.run ((Op.addPassword (js "Mail") (js "demo") (js "one") (js "") tick noon).run
          ((Op.login (js "demo") (js "Demo123!")).run s))).currentUser = none
      ∧ addPassword (js "Shop") (js "demo") (js "two") (js "") tick noon
          (Op.logout.run ((Op.addPassword (js "Mail") (js "demo") (js "one") (js "") tick noon).run
            ((Op.login (js "demo") (js "Demo123!")).run s)))
          = (.returns false,
            Op.logout.run ((Op.addPassword (js "Mail") (js "demo") (js "one") (js "") tick noon).run
              ((Op.login (js "demo") (js "Demo123!")).run s))) :=
  ⟨_, rfl, rfl,
    (unauthenticated_operations_change_nothing _
      (Reachable.step Op.logout _
        (Reachable.step (Op.addPassword (js "Mail") (js "demo") (js "one") (js "") tick noon) _
          (Reachable.step (Op.login (js "demo") (js "Demo123!")) _
            (Reachable.construct emptyStorage (fun _ => noon) _ rfl))))
      rfl 1 (js "Shop") (js "demo") (js "two") (js "") tick noon true).1⟩

/-! ### Update -/

/-- The frame of `updatePassword`. With no record of that id it returns `false` and changes
nothing. With a record of that id and a secret that `encryptPassword` accepts it returns
`true`, and the record set is the old one with the first record of that id replaced by
`updatedEntry`: same length, every other position as before. With a record of that id and
a secret that `encryptPassword` rejects it ends by the exception and changes nothing. -/
theorem updatePassword_frame (id : Nat) (website username secret notes stamp : JSString)
    (s : State) :
    ((∀ p ∈ s.passwords, p.id ≠ id) →
        updatePassword id website username secret notes stamp s = (.returns false, s))
      ∧ (∀ e, encryptPassword secret = some e → (∃ p ∈ s.passwords, p.id = id) →
          ∃ i old, s.passwords[i]? = some old ∧ old.id = id
            ∧ (∀ j, j < i → ∀ q, s.passwords[j]? = some q → q.id ≠ id)
            ∧ (updatePassword id website username secret notes stamp s).1 = .returns true
            ∧ (updatePassword id website username secret notes stamp s).2.passwords
                = s.passwords.set i (updatedEntry old website username e notes stamp)
            ∧ (updatePassword id website username secret notes stamp s).2.passwords.length
                = s.passwords.length
            ∧ ∀ j, j ≠ i →
                (updatePassword id website username secret notes stamp s).2.passwords[j]?
                  = s.passwords[j]?)
      ∧ (encryptPassword secret = none → (∃ p ∈ s.passwords, p.id = id) →
          updatePassword id website username secret notes stamp s = (.throws, s)) := by
  have hsome : (∃ p ∈ s.passwords, p.id = id) →
      ∃ i, List.findIdx? (fun p => p.id == id) s.passwords = some i := by
    rintro ⟨p, hp, hid⟩
    cases hf : List.findIdx? (fun p => p.id == id) s.passwords with
    | none =>
      have := List.findIdx?_eq_none_iff.1 hf p hp
      simp [hid] at this
    | some i => exact ⟨i, rfl⟩
  refine ⟨?_, ?_, ?_⟩
  · intro hno
    have hf : List.findIdx? (fun p => p.id == id) s.passwords = none := by
      rw [List.findIdx?_eq_none_iff]
      intro x hx
      simpa using hno x hx
    simp [updatePassword, hf]
  · intro e he hex
    obtain ⟨i, hf⟩ := hsome hex
    obtain ⟨hlt, hp, hmin⟩ := List.findIdx?_eq_some_iff_getElem.1 hf
    have hget : s.passwords[i]? = some s.passwords[i] := List.getElem?_eq_getElem hlt
    have hpw : (updatePassword id website username secret notes stamp s).2.passwords
        = s.passwords.set i (updatedEntry s.passwords[i] website username e notes stamp) := by
      simp only [updatePassword, hf, he, savePasswords_passwords]
      rw [List.modify_eq_set_get _ hlt]
      rfl
    refine ⟨i, s.passwords[i], hget, by simpa using hp, ?_, ?_, hpw, ?_, ?_⟩
    · intro j hj q hq
      have hjl : j < s.passwords.length := Nat.lt_trans hj hlt
      have := hmin j hj
      rw [List.getElem?_eq_getElem hjl] at hq
      cases hq
      simpa using this
    · simp [updatePassword, hf, he]
    · rw [hpw, List.length_set]
    · intro j hj
      rw [hpw, List.getElem?_set]
      simp [Ne.symm hj]
  · intro he hex
    obtain ⟨i, hf⟩ := hsome hex
    simp [updatePassword, hf, he]

/-- C10, at the failing input. In the session of the sample owner `demo` the record set has
the ids 1, 2 and 3; `updatePassword(1, ..)` with the secret `pass€word` ends by the exception
that `btoa` throws, and the record with id 1 is as it was. -/
theorem updatePassword_throws_above_latin1 :
    ∃ s, construct emptyStorage (fun _ => noon) = .returns s
      ∧ ((login (js "demo") (js "Demo123!") s).2.passwords.map fun p => p.id) = [1, 2, 3]
      ∧ (updatePassword 1 (js "Gmail") (js "demo@gmail.com") (js "pass€word") (js "") noon
          (login (js "demo") (js "Demo123!") s).2).1 = .throws
      ∧ (updatePassword 1 (js "Gmail") (js "demo@gmail.com") (js "pass€word") (js "") noon
          (login (js "demo") (js "Demo123!") s).2).2.passwords
            = (login (js "demo") (js "Demo123!") s).2.passwords := by
  refine ⟨_, rfl, ?_, ?_, ?_⟩ <;> decide

/-! ### Delete -/

theorem deletePassword_passwords (id : Nat) (s : State) :
    (deletePassword id true s).passwords = s.passwords.filter (fun p => decide (p.id ≠ id)) := by
  simp only [deletePassword, if_true, savePasswords_passwords]
  congr 1
  funext p
  by_cases h : p.id = id <;> simp [h]

theorem getPassword_of_absent (id : Nat) (s : State) (h : ∀ p ∈ s.passwords, p.id ≠ id) :
    getPassword id s = .returns none := by
  have hf : s.passwords.find? (fun p => p.id == id) = none := by
    rw [List.find?_eq_none]
    intro p hp
    simpa using h p hp
  simp [getPassword, hf]

theorem savePasswords_store (s : State) (u : User) (h : s.currentUser = some u) :
    (savePasswords s).store.passwords u.id = s.passwords := by
  simp [savePasswords, h, Storage.setPasswords]

/-- C11. For every record set and every id present in it, after a confirmed
`deletePassword(id)`: `getPassword(id)` returns `null`; the record set is the old one
without the records of that id, so the records of any other id are the ones that were
there, unchanged and in their order; the set got shorter; and in a session the persisted
set of the owner is the new set. -/
theorem deletePassword_then_getPassword_null (id : Nat) (s : State)
    (hin : ∃ p ∈ s.passwords, p.id = id) :
    getPassword id (deletePassword id true s) = .returns none
      ∧ (deletePassword id true s).passwords
          = s.passwords.filter (fun p => decide (p.id ≠ id))
      ∧ (∀ p, p ∈ (deletePassword id true s).passwords ↔ p ∈ s.passwords ∧ p.id ≠ id)
      ∧ List.Sublist (deletePassword id true s).passwords s.passwords
      ∧ (deletePassword id true s).passwords.length < s.passwords.length
      ∧ (∀ u, s.currentUser = some u →
          (deletePassword id true s).store.passwords u.id
            = (deletePassword id true s).passwords) := by
  have hp := deletePassword_passwords id s
  refine ⟨?_, hp, ?_, ?_, ?_, ?_⟩
  · apply getPassword_of_absent
    intro p hmem
    rw [hp] at hmem
    simpa using (List.mem_filter.1 hmem).2
  · intro p
    rw [hp]
    simp [List.mem_filter]
  · rw [hp]
    exact List.filter_sublist _
  · rw [hp]
    obtain ⟨p, hmem, hid⟩ := hin
    apply List.length_filter_lt_length_iff_exists.2
    exact ⟨p, hmem, by simp [hid]⟩
  · intro u hu
    simp only [deletePassword, if_true, savePasswords_passwords]
    exact savePasswords_store _ u hu

/-- C11, at an input: the sample owner's session, record 2 deleted. -/
theorem deletePassword_then_getPassword_null_witness :
    ∃ s, construct emptyStorage (fun _ => noon) = .returns s
      ∧ (∃ p ∈ (login (js "demo") (js "Demo123!") s).2.passwords, p.id = 2)
      ∧ getPassword 2 (deletePassword 2 true (login (js "demo") (js "Demo123!") s).2)
          = .returns none
      ∧ ((deletePassword 2 true (login (js "demo") (js "Demo123!") s).2).passwords.map
          fun p => p.id) = [1, 3] :=
  ⟨_, rfl, by decide,
    (deletePassword_then_getPassword_null 2 _ (by decide)).1, by decide⟩

theorem deletePasswordObserved_snd (id : Nat) (confirmed : Bool) (s : State) :
    (deletePasswordObserved id confirmed s).2 = deletePassword id confirmed s := by
  unfold deletePasswordObserved deletePassword
  cases confirmed <;> rfl

/-- C12, at the failing input. In the sample owner's session (record ids 1, 2, 3) a
confirmed `deletePassword(99)` leaves the record set as it was and raises the alert
`Password deleted successfully!`, the same alert as the confirmed `deletePassword(1)` that
removes a record; the call returns `undefined` in both cases. -/
theorem deletePassword_reports_success_for_absent_id :
    ∃ s, construct emptyStorage (fun _ => noon) = .returns s
      ∧ ((login (js "demo") (js "Demo123!") s).2.passwords.map fun p => p.id) = [1, 2, 3]
      ∧ (deletePasswordObserved 99 true (login (js "demo") (js "Demo123!") s).2).2.passwords
          = (login (js "demo") (js "Demo123!") s).2.passwords
      ∧ (deletePasswordObserved 99 true (login (js "demo") (js "Demo123!") s).2).1
          = some ⟨js "Password deleted successfully!", js "success"⟩
      ∧ (deletePasswordObserved 99 true (login (js "demo") (js "Demo123!") s).2).1
          = (deletePasswordObserved 1 true (login (js "demo") (js "Demo123!") s).2).1
      ∧ ((deletePasswordObserved 1 true (login (js "demo") (js "Demo123!") s).2).2.passwords.map
          fun p => p.id) = [2, 3] := by
  refine ⟨_, rfl, ?_, ?_, ?_, ?_, ?_⟩ <;> decide

/-- What `deletePassword` does for an id that no record has: the record set in memory is as
it was, and the alert does not depend on the id or on the record set. -/
theorem deletePassword_of_absent (id : Nat) (confirmed : Bool) (s : State)
    (h : ∀ p ∈ s.passwords, p.id ≠ id) :
    (deletePassword id confirmed s).passwords = s.passwords
      ∧ ∀ (id' : Nat) (s' : State),
          (deletePasswordObserved id confirmed s).1
            = (deletePasswordObserved id' confirmed s').1 := by
  constructor
  · cases confirmed
    · rfl
    · rw [deletePassword_passwords, List.filter_eq_self]
      intro p hp
      simpa using h p hp
  · intro id' s'
    cases confirmed <;> rfl

/-! ### Digest -/

theorem decimalDigits_mem (fuel n : Nat) (acc : List Nat) (c : Nat)
    (h : c ∈ decimalDigits fuel n acc) : (48 ≤ c ∧ c ≤ 57) ∨ c ∈ acc := by
  induction fuel generalizing n acc with
  | zero => exact Or.inr h
  | succ fuel ih =>
    unfold decimalDigits at h
    split at h
    · rcases List.mem_cons.1 h with rfl | h
      · exact Or.inl (by omega)
      · exact Or.inr h
    · rcases ih _ _ h with h | h
      · exact Or.inl h
      · rcases List.mem_cons.1 h with rfl | h
        · exact Or.inl (by omega)
        · exact Or.inr h

theorem numberToString_mem (x : Int) (c : Nat) (h : c ∈ numberToString x) :
    c = 45 ∨ (48 ≤ c ∧ c ≤ 57) := by
  unfold numberToString at h
  split at h
  · rcases List.mem_cons.1 h with rfl | h
    · exact Or.inl rfl
    · rcases decimalDigits_mem _ _ _ _ h with h | h
      · exact Or.inr h
      · cases h
  · rcases decimalDigits_mem _ _ _ _ h with h | h
    · exact Or.inr h
    · cases h

theorem hashPassword_mem (password : JSString) (c : Nat) (h : c ∈ hashPassword password) :
    c = 45 ∨ (48 ≤ c ∧ c ≤ 57) :=
  numberToString_mem _ c h

/-- C15. A candidate that passes `validatePassword` is never its own digest: the digest is
a decimal numeral (digits and possibly a leading minus sign) and the candidate has an
uppercase letter; so the `password` field of the owner that a successful `register` appends
is `hashPassword` of the candidate and differs from the candidate. -/
theorem hashPassword_ne_plaintext (username email password : JSString) (now : Nat)
    (stamp : JSString) (s : State) (hvalid : validatePassword password = true) :
    hashPassword password ≠ password
      ∧ ((register username email password now stamp s).1 = true →
          ∃ o, (register username email password now stamp s).2.store.users
                = s.store.users ++ [o]
            ∧ o.password = hashPassword password ∧ o.password ≠ password) := by
  have hne : hashPassword password ≠ password := by
    intro heq
    obtain ⟨_, hU, _, _, _⟩ := (validatePassword_eq_true password).1 hvalid
    rw [reUpper_test, List.any_eq_true] at hU
    obtain ⟨c, hc, hrange⟩ := hU
    rw [← heq] at hc
    have := hashPassword_mem password c hc
    simp only [decide_eq_true_eq] at hrange
    omega
  refine ⟨hne, ?_⟩
  intro hreg
  rw [register_snd, if_pos hreg]
  exact ⟨newUser username email password now stamp, rfl, rfl, hne⟩

/-- C15, at an input: the candidate `Demo123!`, whose digest is `920174770`. -/
theorem hashPassword_ne_plaintext_witness :
    validatePassword (js "Demo123!") = true
      ∧ hashPassword (js "Demo123!") = js "920174770"
      ∧ hashPassword (js "Demo123!") ≠ js "Demo123!" :=
  ⟨by decide, by decide,
    (hashPassword_ne_plaintext [] [] (js "Demo123!") 0 [] ⟨none, [], emptyStorage⟩
      (by decide)).1⟩

/-! ### Get after add -/

theorem encryptPassword_eq_some (secret e : JSString) (h : encryptPassword secret = some e) :
    (∀ c ∈ secret, c ≤ 255) ∧ decryptPassword e = some secret := by
  have hall : ∀ c ∈ secret, c ≤ 255 := by
    unfold encryptPassword btoa at h
    split at h
    · rename_i hb
      intro c hc
      simpa using List.all_eq_true.1 hb c hc
    · cases h
  obtain ⟨e', he', hd⟩ := decrypt_encrypt_of_latin1 secret hall
  rw [h] at he'
  cases he'
  exact ⟨hall, hd⟩

/-- C13, counterexample. In the sample owner's session two adds read the same clock value;
both succeed, and `getPassword` with the id of the record added last returns the record
added first: site `Bank` and secret `one`, where the add was given `Mail` and `two`. -/
theorem getPassword_after_addPassword_finds_older_record :
    ∃ s, construct emptyStorage (fun _ => noon) = .returns s
      ∧ (addPassword (js "Mail") (js "eve") (js "two") (js "") tick noon
          (addPassword (js "Bank") (js "eve") (js "one") (js "") tick noon
            (login (js "demo") (js "Demo123!") s).2).2).1 = .returns true
      ∧ getPassword tick
          (addPassword (js "Mail") (js "eve") (js "two") (js "") tick noon
            (addPassword (js "Bank") (js "eve") (js "one") (js "") tick noon
              (login (js "demo") (js "Demo123!") s).2).2).2
          = .returns (some (newPassword (js "Bank") (js "eve") (js "one") (js "") tick noon 1)) := by
  refine ⟨_, rfl, ?_, ?_⟩ <;> decide

/-- C13, amended. In a session, when `addPassword` succeeds and the clock value it read is
not yet the id of a record of the set, `getPassword` with the id of the new record returns
that record with the plaintext secret in place of the stored one: its site, account and
notes are the values given to add; and `getPassword` of an id that no record has returns
`null`. -/
theorem getPassword_after_addPassword (website username secret notes : JSString) (now : Nat)
    (stamp : JSString) (s : State)
    (hadd : (addPassword website username secret notes now stamp s).1 = .returns true)
    (hfresh : ∀ p ∈ s.passwords, p.id ≠ now) :
    (∃ user, s.currentUser = some user
        ∧ getPassword now (addPassword website username secret notes now stamp s).2
          = .returns (some { id := now, website := website, username := username,
                             password := secret, notes := notes, createdAt := stamp,
                             userId := user.id, updatedAt := none }))
      ∧ ∀ id, (∀ p ∈ (addPassword website username secret notes now stamp s).2.passwords,
            p.id ≠ id) →
          getPassword id (addPassword website username secret notes now stamp s).2
            = .returns none := by
  obtain ⟨user, e, hu, he, hs⟩ := addPassword_returns_true _ _ _ _ _ _ _ hadd
  obtain ⟨-, hd⟩ := encryptPassword_eq_some secret e he
  refine ⟨⟨user, hu, ?_⟩, fun id h => getPassword_of_absent id _ h⟩
  have hfind : (s.passwords ++ [newPassword website username e notes now stamp user.id]).find?
      (fun p => p.id == now)
      = some (newPassword website username e notes now stamp user.id) := by
    apply find?_append_singleton_of_none
    · intro p hp
      simpa using hfresh p hp
    · simp [newPassword]
  have hpw : (newPassword website username e notes now stamp user.id).password = e := rfl
  simp only [getPassword, hs, savePasswords_passwords, hfind, hpw, hd]
  rfl

/-- C13, amended, at an input: one add in the sample owner's session. -/
theorem getPassword_after_addPassword_witness :
    ∃ s, construct emptyStorage (fun _ => noon) = .returns s
      ∧ (addPassword (js "Bank") (js "eve") (js "one") (js "") tick noon
          (login (js "demo") (js "Demo123!") s).2).1 = .returns true
      ∧ (∀ p ∈ (login (js "demo") (js "Demo123!") s).2.passwords, p.id ≠ tick)
      ∧ ∃ user, (login (js "demo") (js "Demo123!") s).2.currentUser = some user
        ∧ getPassword tick (addPassword (js "Bank") (js "eve") (js "one") (js "") tick noon
            (login (js "demo") (js "Demo123!") s).2).2
          = .returns (some { id := tick, website := js "Bank", username := js "eve",
                             password := js "one", notes := js "", createdAt := noon,
                             userId := user.id, updatedAt := none }) :=
  ⟨_, rfl, by decide, by decide,
    (getPassword_after_addPassword (js "Bank") (js "eve") (js "one") (js "") tick noon _
      (by decide) (by decide)).1⟩

/-! ### Partition by owner -/

theorem mem_modify {α : Type} (f : α → α) (l : List α) (i : Nat) (p : α)
    (h : p ∈ List.modify f i l) : p ∈ l ∨ ∃ q ∈ l, p = f q := by
  induction l generalizing i with
  | nil => simp at h
  | cons x xs ih =>
    cases i with
    | zero =>
      rw [List.modify_zero_cons] at h
      rcases List.mem_cons.1 h with rfl | h
      · exact Or.inr ⟨x, List.mem_cons_self _ _, rfl⟩
      · exact Or.inl (List.mem_cons_of_mem _ h)
    | succ i =>
      rw [List.modify_succ_cons] at h
      rcases List.mem_cons.1 h with rfl | h
      · exact Or.inl (List.mem_cons_self _ _)
      · rcases ih i h with h | ⟨q, hq, rfl⟩
        · exact Or.inl (List.mem_cons_of_mem _ h)
        · exact Or.inr ⟨q, List.mem_cons_of_mem _ hq, rfl⟩

theorem Partitioned.userId_of_mem (s : State) (h : Partitioned s) (u : User)
    (hu : s.currentUser = some u) : ∀ p ∈ s.passwords, p.userId = u.id := by
  intro p hp
  rw [h.2.1 u hu] at hp
  exact h.1 u.id p hp

theorem partitioned_save (s s1 : State) (h : Partitioned s)
    (hc : s1.currentUser = s.currentUser) (hst : s1.store = s.store)
    (hmem : ∀ u, s.currentUser = some u → ∀ p ∈ s1.passwords, p.userId = u.id)
    (hnil : s.currentUser = none → s1.passwords = []) : Partitioned (savePasswords s1) := by
  cases hcu : s.currentUser with
  | none =>
    have h1 : s1.currentUser = none := by rw [hc, hcu]
    rw [savePasswords_of_none s1 h1]
    refine ⟨?_, ?_, ?_⟩
    · rw [hst]; exact h.1
    · intro u hu
      rw [h1] at hu
      cases hu
    · intro _
      exact hnil hcu
  | some u =>
    have h1 : s1.currentUser = some u := by rw [hc, hcu]
    unfold savePasswords
    simp only [h1]
    refine ⟨?_, ?_, ?_⟩
    · intro k p hp
      simp only [Storage.setPasswords] at hp
      split at hp
      · rename_i hk
        rw [hk]
        exact hmem u hcu p hp
      · rw [hst] at hp
        exact h.1 k p hp
    · intro u' hu'
      cases hu'
      simp [Storage.setPasswords]
    · intro hn
      cases hn

theorem construct_partitioned (store : Storage) (stamp : Nat → JSString) (s : State)
    (hst : ∀ k, ∀ p ∈ store.passwords k, p.userId = k)
    (h : construct store stamp = .returns s) : Partitioned s := by
  unfold construct loadUserData at h
  cases hc : store.currentUser with
  | none =>
    simp only [hc, initializeSampleData, getUsers] at h
    split at h
    · cases h
      exact ⟨hst, fun u hu => (by cases hu), fun _ => rfl⟩
    · split at h
      · cases h
        refine ⟨?_, fun u hu => (by cases hu), fun _ => rfl⟩
        intro k p hp
        simp only [Storage.setPasswords] at hp
        split at hp
        · rename_i hk
          rw [hk]
          simp only [List.mem_cons, List.mem_singleton, List.not_mem_nil, or_false] at hp
          rcases hp with rfl | rfl | rfl <;> rfl
        · exact hst k p hp
      · cases h
  | some u =>
    simp only [hc, loadPasswords, initializeSampleData] at h
    cases h
    refine ⟨hst, ?_, ?_⟩
    · intro u' hu'
      cases hu'
      rfl
    · intro hn
      cases hn

theorem run_partitioned (op : Op) (s : State) (h : Partitioned s) : Partitioned (op.run s) := by
  cases op with
  | register u e p now stamp =>
    simp only [Op.run, register_snd]
    split
    · exact ⟨h.1, h.2.1, h.2.2⟩
    · exact h
  | login u p =>
    simp only [Op.run, login, getUsers]
    split
    · exact h
    · split
      · exact h
      · refine ⟨h.1, ?_, ?_⟩
        · intro u' hu'
          simp only [loadPasswords] at hu' ⊢
          cases hu'
          rfl
        · intro hn
          simp [loadPasswords] at hn
  | logout => exact ⟨h.1, fun u hu => (by cases hu), fun _ => rfl⟩
  | addPassword w u p n now stamp =>
    simp only [Op.run, addPassword]
    split
    · exact h
    · rename_i cu hcu
      split
      · exact h
      · refine partitioned_save s _ h (by rfl) (by rfl) ?_ ?_
        · intro u' hu' q hq
          rw [hcu] at hu'
          cases hu'
          rcases List.mem_append.1 hq with hq | hq
          · exact h.userId_of_mem s cu hcu q hq
          · rw [List.mem_singleton] at hq
            rw [hq]
        · intro hn
          rw [hcu] at hn
          cases hn
  | updatePassword id w u p n stamp =>
    simp only [Op.run, updatePassword]
    split
    · exact h
    · split
      · exact h
      · refine partitioned_save s _ h (by rfl) (by rfl) ?_ ?_
        · intro u' hu' q hq
          rcases mem_modify _ _ _ _ hq with hq | ⟨r, hr, rfl⟩
          · exact h.userId_of_mem s u' hu' q hq
          · exact h.userId_of_mem s u' hu' r hr
        · intro hn
          simp only [h.2.2 hn, List.modify_nil]
  | deletePassword id c =>
    simp only [Op.run, deletePassword]
    split
    · refine partitioned_save s _ h (by rfl) (by rfl) ?_ ?_
      · intro u' hu' q hq
        exact h.userId_of_mem s u' hu' q (List.mem_filter.1 hq).1
      · intro hn
        simp only [h.2.2 hn, List.filter_nil]
    · exact h

theorem fromEmpty_partitioned (s : State) (hs : FromEmpty s) : Partitioned s := by
  induction hs with
  | start stamp s h =>
    exact construct_partitioned emptyStorage stamp s (fun k p hp => by cases hp) h
  | reload stamp s t _ h ih => exact construct_partitioned s.store stamp t ih.1 h
  | step op s _ ih => exact run_partitioned op s ih

theorem savePasswords_store_other (s : State) (b : User) (hb : s.currentUser = some b)
    (a : Nat) (hab : a ≠ b.id) : (savePasswords s).store.passwords a = s.store.passwords a := by
  simp [savePasswords, hb, Storage.setPasswords, hab]

/-- C14, counterexample. `bob` and `eve` register on one clock value and so get one id.
`bob` adds a record in his session and logs out; in the session of `eve` that record is in
the record set, `getPassword` returns it with the plaintext secret, `updatePassword` of its
id returns `true`, and a confirmed `deletePassword` of its id empties the record set
persisted under the id of `bob`. -/
theorem owners_with_one_id_share_records :
    ∃ s, construct emptyStorage (fun _ => noon) = .returns s
      ∧ ((twoOwnerSession tick tick s).store.users.map fun u => (u.username, u.id))
          = [(js "demo", 1), (js "bob", tick), (js "eve", tick)]
      ∧ ((twoOwnerSession tick tick s).currentUser.map fun u => u.username) = some (js "eve")
      ∧ ((twoOwnerSession tick tick s).passwords.map fun p => (p.website, p.id))
          = [(js "Bank", tick + 1)]
      ∧ getPassword (tick + 1) (twoOwnerSession tick tick s)
          = .returns (some (newPassword (js "Bank") (js "bob") (js "one") (js "") (tick + 1)
              noon tick))
      ∧ (updatePassword (tick + 1) (js "Bank") (js "eve") (js "two") (js "") noon
          (twoOwnerSession tick tick s)).1 = .returns true
      ∧ ((twoOwnerSession tick tick s).store.passwords tick).length = 1
      ∧ (deletePassword (tick + 1) true (twoOwnerSession tick tick s)).store.passwords tick
          = [] := by
  refine ⟨_, rfl, ?_, ?_, ?_, ?_, ?_, ?_, ?_⟩ <;> decide

/-- C14, amended. In every state reached from an empty storage in which an owner `b` is
logged in, and for every owner id `a` other than the id of `b`: no record with `userId = a`
is in the record set that get, update and delete operate on, while every record persisted
under `a` has `userId = a` and a record added now gets the `userId` of `b`; add, update and
delete leave the record set persisted under `a` as it is; and for an id that no record of
the set of `b` has, `updatePassword` returns `false` changing nothing and `getPassword`
returns `null`. -/
theorem records_partitioned_by_owner_id (s : State) (hs : FromEmpty s) (b : User)
    (hb : s.currentUser = some b) (a : Nat) (hab : a ≠ b.id) :
    (∀ r, r.userId = a → r ∉ s.passwords)
      ∧ (∀ r ∈ s.store.passwords a, r.userId = a)
      ∧ (∀ (w u p n : JSString) (now : Nat) (stamp : JSString),
          (addPassword w u p n now stamp s).1 = .returns true →
          ∃ r, (addPassword w u p n now stamp s).2.passwords = s.passwords ++ [r]
            ∧ r.userId = b.id)
      ∧ (∀ (w u p n : JSString) (now : Nat) (stamp : JSString),
          (addPassword w u p n now stamp s).2.store.passwords a = s.store.passwords a)
      ∧ (∀ (id : Nat) (w u p n stamp : JSString),
          (updatePassword id w u p n stamp s).2.store.passwords a = s.store.passwords a)
      ∧ (∀ (id : Nat) (c : Bool),
          (deletePassword id c s).store.passwords a = s.store.passwords a)
      ∧ (∀ (id : Nat) (w u p n stamp : JSString), (∀ q ∈ s.passwords, q.id ≠ id) →
          updatePassword id w u p n stamp s = (.returns false, s))
      ∧ (∀ id : Nat, (∀ q ∈ s.passwords, q.id ≠ id) → getPassword id s = .returns none) := by
  have hp := fromEmpty_partitioned s hs
  refine ⟨?_, hp.1 a, ?_, ?_, ?_, ?_, ?_, ?_⟩
  · intro r hr hmem
    have := hp.userId_of_mem s b hb r hmem
    omega
  · intro w u p n now stamp hadd
    obtain ⟨user, e, hu, -, heq⟩ := addPassword_returns_true _ _ _ _ _ _ _ hadd
    rw [hb] at hu
    cases hu
    rw [heq, savePasswords_passwords]
    exact ⟨_, rfl, rfl⟩
  · intro w u p n now stamp
    simp only [addPassword, hb]
    split
    · rfl
    · exact savePasswords_store_other _ b (by rfl) a hab
  · intro id w u p n stamp
    simp only [updatePassword]
    split
    · rfl
    · split
      · rfl
      · exact savePasswords_store_other _ b (by exact hb) a hab
  · intro id c
    simp only [deletePassword]
    split
    · exact savePasswords_store_other _ b (by exact hb) a hab
    · rfl
  · intro id w u p n stamp hno
    exact (updatePassword_frame id w u p n stamp s).1 hno
  · intro id hno
    exact getPassword_of_absent id s hno

/-- C14, amended, at an input: `bob` registers on `tick` and `eve` on `tick + 2`; in the
session of `eve` the record that `bob` added is not in the record set. -/
theorem records_partitioned_by_owner_id_witness :
    ∃ s, construct emptyStorage (fun _ => noon) = .returns s
      ∧ ((twoOwnerSession tick (tick + 2) s).currentUser.map fun u => (u.username, u.id))
          = some (js "eve", tick + 2)
      ∧ (((twoOwnerSession tick (tick + 2) s).store.passwords tick).map fun p => p.website)
          = [js "Bank"]
      ∧ (∀ r, r.userId = tick → r ∉ (twoOwnerSession tick (tick + 2) s).passwords) :=
  ⟨_, rfl, by decide, by decide,
    (records_partitioned_by_owner_id (twoOwnerSession tick (tick + 2) _)
      (FromEmpty.step (Op.login (js "eve") (js "Evepass1!")) _
        (FromEmpty.step Op.logout _
          (FromEmpty.step
            (Op.addPassword (js "Bank") (js "bob") (js "one") (js "") (tick + 1) noon) _
            (FromEmpty.step (Op.login (js "bob") (js "Bobpass1!")) _
              (FromEmpty.step
                (Op.register (js "eve") (js "eve@x.io") (js "Evepass1!") (tick + 2) noon) _
                (FromEmpty.step
                  (Op.register (js "bob") (js "bob@x.io") (js "Bobpass1!") tick noon) _
                  (FromEmpty.start (fun _ => noon) _ rfl)))))))
      (newUser (js "eve") (js "eve@x.io") (js "Evepass1!") (tick + 2) noon)
      (by decide) tick (by decide)).1⟩

end LockVault
